import Mathlib

/-!
Verification of the hydr0g3n content-discovery engine core.

Strings from the Go source are embedded as `List Char` (`Str`), so that every
operation is structurally recursive and kernel-evaluable.  Each definition
mirrors one Go function of the repository; the Go file and function are named
in its doc comment.
-/

set_option linter.unusedVariables false
set_option linter.dupNamespace false
set_option linter.unreachableTactic false
set_option linter.unusedTactic false
set_option linter.unnecessarySeqFocus false

/-- Byte strings of the Go program, embedded as lists of characters. -/
abbrev Str := List Char

namespace Hydro

/-- Whitespace test used by `strings.TrimSpace` (pkg strings); the Go version
accepts all Unicode white space, the embedding covers the ASCII subset the
repository's inputs use. -/
def isSpaceChar (c : Char) : Bool :=
  c = ' ' || c = '\t' || c = '\n' || c = '\r'

/-- `strings.TrimSpace`: drop leading and trailing whitespace. -/
def trimSpace (s : Str) : Str :=
  ((s.dropWhile isSpaceChar).reverse.dropWhile isSpaceChar).reverse

/-- `strings.Contains(s, pat)`: substring test (true for an empty pattern,
matching Go). -/
def containsSub (s pat : Str) : Bool :=
  pat.isPrefixOf s ||
    match s with
    | [] => false
    | _ :: t => containsSub t pat

/-- Fuel-driven core of `strings.ReplaceAll`: scan left to right, replacing
each non-overlapping leftmost occurrence of `pat` by `rep`.  The fuel is
always at least the length of the remaining string, so the scan never runs
out; it only serves to make the recursion structural. -/
def replaceAllAux (pat rep : Str) : Nat → Str → Str
  | 0, s => s
  | _ + 1, [] => []
  | fuel + 1, c :: rest =>
    if pat ≠ [] ∧ pat.isPrefixOf (c :: rest) then
      rep ++ replaceAllAux pat rep fuel ((c :: rest).drop pat.length)
    else
      c :: replaceAllAux pat rep fuel rest

/-- `strings.ReplaceAll(s, pat, rep)` for a non-empty pattern (every pattern
used by the repository is non-empty; the empty pattern is left as the
identity). -/
def replaceAll (pat rep s : Str) : Str :=
  replaceAllAux pat rep s.length s

/-- `strings.Split(s, sep)` for a single-character separator: split on every
occurrence, keeping empty fields.  Never returns an empty list. -/
def splitOnChar (sep : Char) : Str → List Str
  | [] => [[]]
  | c :: rest =>
    match splitOnChar sep rest with
    | [] => [[c]]
    | p :: ps => if c = sep then [] :: p :: ps else (c :: p) :: ps

/-- `strings.SplitN(s, sep, 2)` for a single-character separator: split at the
first occurrence only; `none` when the separator is absent. -/
def splitFirst (sep : Char) : Str → Option (Str × Str)
  | [] => none
  | c :: rest =>
    if c = sep then some ([], rest)
    else
      match splitFirst sep rest with
      | none => none
      | some (a, b) => some (c :: a, b)

/-- Decimal digit run to a natural number; `none` on an empty or non-digit
run. -/
def digitsToNat : Str → Option Nat
  | [] => none
  | ds => go ds 0
where
  go : Str → Nat → Option Nat
    | [], acc => some acc
    | c :: rest, acc =>
      if c.isDigit then go rest (acc * 10 + (c.toNat - '0'.toNat)) else none

/-- `strconv.Atoi`: optional sign followed by decimal digits (the 64-bit
range check of Go is not modelled; the repository's ranges are small). -/
def atoi (s : Str) : Option Int :=
  match s with
  | '+' :: ds => (digitsToNat ds).map Int.ofNat
  | '-' :: ds => (digitsToNat ds).map fun n => -(n : Int)
  | ds => (digitsToNat ds).map Int.ofNat

/-- Decimal digits of a natural number. -/
def natDigits (n : Nat) : Str :=
  Nat.toDigits 10 n

/-- Decimal rendering of an integer (`strconv.Itoa`). -/
def intToStr (v : Int) : Str :=
  if v < 0 then '-' :: natDigits v.natAbs else natDigits v.natAbs

/-- Left-pad with `'0'` to the given width (no-op when already wide enough). -/
def leftPadZero (width : Nat) (s : Str) : Str :=
  List.replicate (width - s.length) '0' ++ s

/-- `fmt.Sprintf("%0*d", width, v)`: zero-padded decimal; for a negative
value the sign occupies one column of the width, as in Go. -/
def padZero (width : Nat) (v : Int) : Str :=
  if v < 0 then '-' :: leftPadZero (width - 1) (natDigits v.natAbs)
  else leftPadZero width (natDigits v.natAbs)

/-- `strings.HasSuffix(s, "/")` specialised to the one-character suffix the
templater uses. -/
def endsWithSlash (s : Str) : Bool :=
  match s.reverse with
  | [] => false
  | c :: _ => c = '/'

end Hydro

namespace Store

open Hydro

/-- `normalizeList` (pkg/store/sqlite.go): trim every entry and drop the ones
that become empty. -/
def normalizeList (values : List Str) : List Str :=
  (values.map trimSpace).filter (· ≠ [])

/-- Ascending sort with the lexicographic string order, as `sort.Strings`
does (Go compares UTF-8 bytes; on `List Char` the codepoint-wise
lexicographic order induces the same ordering). -/
def sortStrings (l : List Str) : List Str :=
  l.insertionSort (· ≤ ·)

/-- The exact byte stream `hashFromLists` (pkg/store/sqlite.go) feeds to the
SHA-1 hasher: each sorted config entry followed by a newline, the literal
separator `--payloads--` and a newline, then each sorted payload entry
followed by a newline. -/
def hashInput (configList payloadList : List Str) : Str :=
  (sortStrings configList).foldr (fun e acc => e ++ '\n' :: acc)
    (("--payloads--".toList) ++ '\n' ::
      (sortStrings payloadList).foldr (fun e acc => e ++ '\n' :: acc) [])

/-- `hashFromLists` (pkg/store/sqlite.go): sort both lists and digest the
serialized stream.  The SHA-1 hex digest itself is abstracted as the
parameter `digest`; the claims about run identities only concern equality of
the digested input. -/
def hashFromLists (digest : Str → Str) (configList payloadList : List Str) : Str :=
  digest (hashInput configList payloadList)

/-- `RunMetadata.hash` (pkg/store/sqlite.go) restricted to explicitly
supplied entry lists: normalize both lists, then `hashFromLists`.  (The
fallback to scalar-field defaults for empty lists is not needed by the
claims, which quantify over the resulting entry lists.) -/
def computeIdentity (digest : Str → Str) (configList payloadList : List Str) : Str :=
  hashFromLists digest (normalizeList configList) (normalizeList payloadList)

/-- The `path_attempted` table (schema in `initSchema`, pkg/store/sqlite.go):
`path TEXT PRIMARY KEY, run_id INTEGER NOT NULL`.  The path is the sole
primary key, so a path appears at most once across the whole database; each
row stores the run's database key (`runs.id`, and distinct run identities
get distinct keys via the `runs` table). -/
structure AttemptDB where
  rows : List (Str × Nat)
deriving DecidableEq

/-- The set of paths currently present in the table. -/
def AttemptDB.paths (db : AttemptDB) : List Str :=
  db.rows.map Prod.fst

/-- `Run.MarkAttempt` (pkg/store/sqlite.go): `INSERT OR IGNORE` keyed on the
path-only primary key; when no row was inserted the existing row's `run_id`
and timestamp are updated and `false` is returned, otherwise the row is
inserted and `true` is returned. -/
def markAttempt (db : AttemptDB) (runPk : Nat) (path : Str) : Bool × AttemptDB :=
  if path ∈ db.paths then
    (false, ⟨db.rows.map fun r => if r.1 = path then (path, runPk) else r⟩)
  else
    (true, ⟨db.rows ++ [(path, runPk)]⟩)

end Store

namespace Templater

open Hydro

/-- An opening brace character (the payload grammar's literal). -/
def lbrace : Char := '\x7b'

/-- A closing brace character. -/
def rbrace : Char := '\x7d'

/-- `DefaultPlaceholder` (pkg/templater/templater.go). -/
def placeholderFUZZ : Str := "FUZZ".toList

/-- The doubled placeholder token built by `Expand`. -/
def doubleFUZZ : Str := [lbrace, lbrace] ++ placeholderFUZZ ++ [rbrace, rbrace]

/-- The `%s` placeholder token. -/
def percentS : Str := "%s".toList

/-- `Templater.Expand` (pkg/templater/templater.go) with the default
placeholder: substitute every occurrence of the doubled placeholder, of the
bare placeholder (detected on the template with doubled occurrences
removed), and of `%s`; when no placeholder kind is present, append the
payload to the path with a single slash unless the template already ends in
one. -/
def expand (template payload : Str) : Str :=
  let ph := placeholderFUZZ
  let dbl := doubleFUZZ
  let hasDouble := containsSub template dbl
  let e1 := if hasDouble then replaceAll dbl payload template else template
  let tNoDouble := if hasDouble then replaceAll dbl [] template else template
  let hasPlain := containsSub tNoDouble ph
  let e2 := if hasPlain then replaceAll ph payload e1 else e1
  let hasFormat := containsSub template percentS
  let e3 := if hasFormat then replaceAll percentS payload e2 else e2
  if hasDouble || hasPlain || hasFormat then e3
  else if endsWithSlash template then template ++ payload
  else template ++ '/' :: payload

/-- Leading-zero test (`strings.HasPrefix(s, "0")`). -/
def startsWithZero : Str → Bool
  | '0' :: _ => true
  | _ => false

/-- `expandOnce` (pkg/templater/templater.go): scan left to right; at the
first expandable brace alternation or integer range, return the list of
variants; unterminated or unparsable constructs are skipped past one
character at a time, exactly as the Go byte loop's `continue` does. -/
def expandOnceAux (pre : Str) : Str → Option (List Str)
  | [] => none
  | c :: rest =>
    if c = lbrace then
      match splitFirst rbrace rest with
      | none => expandOnceAux (pre ++ [c]) rest
      | some (contents, suffix) =>
        let options := splitOnChar ',' contents
        some (options.map fun o => pre ++ trimSpace o ++ suffix)
    else if c = '[' then
      match splitFirst ']' rest with
      | none => expandOnceAux (pre ++ [c]) rest
      | some (raw, suffix) =>
        let contents := trimSpace raw
        match splitFirst '-' contents with
        | none => expandOnceAux (pre ++ [c]) rest
        | some (s0, e0) =>
          let startStr := trimSpace s0
          let endStr := trimSpace e0
          if startStr = [] ∨ endStr = [] then expandOnceAux (pre ++ [c]) rest
          else
            match atoi startStr, atoi endStr with
            | some start, some stop =>
              let width : Nat :=
                if startStr.length = endStr.length ∧
                    (startsWithZero startStr || startsWithZero endStr) then
                  startStr.length
                else 0
              let step : Int := if start > stop then -1 else 1
              let count : Nat := 1 + (start - stop).natAbs
              let values := (List.range count).map fun i => start + step * (i : Int)
              some (values.map fun v =>
                pre ++ (if width > 0 then padZero width v else intToStr v) ++ suffix)
            | _, _ => expandOnceAux (pre ++ [c]) rest
    else expandOnceAux (pre ++ [c]) rest

/-- `expandOnce` applied from the start of the payload. -/
def expandOnce (payload : Str) : Option (List Str) :=
  expandOnceAux [] payload

/-- One pass of `Templater.ExpandPayload`'s loop: expand every entry that
`expandOnce` can expand, note whether anything changed. -/
def expandStep (results : List Str) : List Str × Bool :=
  results.foldr
    (fun cur acc =>
      match expandOnce cur with
      | some vs => (vs ++ acc.1, true)
      | none => (cur :: acc.1, acc.2))
    ([], false)

/-- Closing braces and brackets remaining in a payload; every successful
`expandOnce` consumes one of them, which bounds the expansion loop. -/
def closersCount (s : Str) : Nat :=
  (s.filter fun c => c = rbrace || c = ']').length

/-- The `ExpandPayload` fixed-point loop, made structural with fuel; the Go
loop runs until a pass changes nothing, and `closersCount payload + 1`
passes always reach that fixed point because each changed pass consumes a
closing brace or bracket from every entry it expands. -/
def expandLoop : Nat → List Str → List Str
  | 0, rs => rs
  | fuel + 1, rs =>
    let step := expandStep rs
    if step.2 then expandLoop fuel step.1 else step.1

/-- `Templater.ExpandPayload` (pkg/templater/templater.go): an empty line
yields the single empty payload; otherwise expand until no brace or range
construct remains. -/
def expandPayload (payload : Str) : List Str :=
  if payload = [] then [[]]
  else expandLoop (closersCount payload + 1) [payload]

/-- A template decomposed into literal runs and placeholder tokens: the
general shape of a template over which the substitution claim quantifies;
`assemble` maps the decomposition back to the template string. -/
inductive Piece where
  | lit (s : Str)
  | double
  | plain
  | format
deriving DecidableEq

/-- The text a piece contributes to the template: the literal run itself, or
one of the tokens `\x7b\x7bFUZZ\x7d\x7d`, `FUZZ`, `%s`. -/
def Piece.text : Piece → Str
  | .lit s => s
  | .double => doubleFUZZ
  | .plain => placeholderFUZZ
  | .format => percentS

/-- Is this piece one of the three placeholder tokens? -/
def Piece.isToken : Piece → Bool
  | .lit _ => false
  | _ => true

/-- Replace every placeholder token by the payload and keep the literals. -/
def Piece.subst (payload : Str) : Piece → Str
  | .lit s => s
  | _ => payload

/-- The text of each piece after the doubled-placeholder pass replaced every
doubled token by `rep`. -/
def Piece.afterDouble (rep : Str) : Piece → Str
  | .double => rep
  | p => p.text

/-- The text of each piece after both the doubled and the bare placeholder
passes replaced their tokens by the payload. -/
def Piece.afterPlain (payload : Str) : Piece → Str
  | .double => payload
  | .plain => payload
  | p => p.text

/-- Concatenate the per-piece texts. -/
def concatPieces (f : Piece → Str) : List Piece → Str
  | [] => []
  | p :: ps => f p ++ concatPieces f ps

/-- Reassemble the template string from its pieces. -/
def assemble (ps : List Piece) : Str :=
  concatPieces Piece.text ps

/-- The substitution claim's intended output: every placeholder token
replaced by the payload, every literal run kept. -/
def substPieces (payload : Str) (ps : List Piece) : Str :=
  concatPieces (Piece.subst payload) ps

/-- A literal run that cannot begin a placeholder occurrence: it avoids the
three characters that start the tokens `\x7b\x7bFUZZ\x7d\x7d`, `FUZZ` and
`%s`. -/
def cleanLit (s : Str) : Bool :=
  s.all fun c => !(c = lbrace || c = 'F' || c = '%')

/-- Every literal piece of the decomposition is clean. -/
def cleanPieces : List Piece → Bool
  | [] => true
  | .lit s :: ps => cleanLit s && cleanPieces ps
  | _ :: ps => cleanPieces ps

/-- A payload that cannot begin a placeholder occurrence in a later
substitution pass: it avoids `F` and `%`. -/
def cleanPayload (s : Str) : Bool :=
  s.all fun c => !(c = 'F' || c = '%')

end Templater

namespace Matcher

open Hydro

/-- Character class used by `tokenize` (pkg/matcher/matcher.go):
`unicode.IsLetter || unicode.IsNumber`; the embedding covers the ASCII
subset the repository's bodies use. -/
def isTokenChar (c : Char) : Bool :=
  c.isAlpha || c.isDigit

/-- Accumulating core of `strings.FieldsFunc`: split into maximal runs of
token characters, dropping the empty fields between separators. -/
def fieldsAux : Str → Str → List Str
  | [], cur => if cur = [] then [] else [cur.reverse]
  | c :: rest, cur =>
    if isTokenChar c then fieldsAux rest (c :: cur)
    else if cur = [] then fieldsAux rest []
    else cur.reverse :: fieldsAux rest []

/-- `tokenize` (pkg/matcher/matcher.go): lowercase the body and split it
into letter/number runs. -/
def tokenize (body : Str) : List Str :=
  if body = [] then [] else fieldsAux (body.map Char.toLower) []

/-- `buildShingles` (pkg/matcher/matcher.go): slide a window of `size`
tokens (clamped to at least 1 and at most the token count) and collect the
space-joined windows as a set. -/
def buildShingles (body : Str) (size : Int) : Finset Str :=
  let s0 : Int := if size ≤ 0 then 1 else size
  let tokens := tokenize body
  if tokens = [] then ∅
  else
    let sz : Nat := min s0.toNat tokens.length
    ((List.range (tokens.length - sz + 1)).map
      fun i => List.intercalate [' '] ((tokens.drop i).take sz)).toFinset

/-- `jaccardSimilarity` (pkg/matcher/matcher.go): `|a ∩ b| / (|a| + |b| −
|a ∩ b|)`, with 0 for an empty side.  Go computes the quotient in `float64`;
the embedding computes it exactly in `ℚ`, which agrees with the comparisons
the matcher makes at the set sizes a 1 MiB body can produce. -/
def jaccardSimilarity (a b : Finset Str) : ℚ :=
  if a = ∅ ∨ b = ∅ then 0
  else
    let inter := (a ∩ b).card
    let union := a.card + b.card - inter
    if union = 0 then 0 else (inter : ℚ) / (union : ℚ)

/-- `SizeRange` (pkg/matcher/matcher.go). -/
structure SizeRange where
  min : Int
  max : Int
  hasMin : Bool
  hasMax : Bool
deriving DecidableEq

/-- `Options` (pkg/matcher/matcher.go). -/
structure Options where
  statuses : List Int
  size : SizeRange
  baselineBody : Str
  similarityThreshold : ℚ
  shingleSize : Int
deriving DecidableEq

/-- `Matcher` (pkg/matcher/matcher.go); the status set is kept as the list
it was built from, guarded by `hasStatus` exactly as the nil map is in Go. -/
structure Matcher where
  statuses : List Int
  hasStatus : Bool
  size : SizeRange
  hasSizeAny : Bool
  baseline : Finset Str
  hasBaseline : Bool
  threshold : ℚ
  shingleSize : Int
deriving DecidableEq

/-- `MatchOutcome` (pkg/matcher/matcher.go). -/
structure MatchOutcome where
  matched : Bool
  similarity : ℚ
  hasSimilarity : Bool
deriving DecidableEq

/-- The projection of `engine.Result` that `Matcher.Evaluate` reads:
status code, content length, body, and whether `Err` was set. -/
structure Result where
  statusCode : Int
  contentLength : Int
  body : Str
  hasErr : Bool
deriving DecidableEq

/-- `New` (pkg/matcher/matcher.go): normalize the shingle size (≤ 0 becomes
5), activate the status filter iff the list is non-empty, the size filter
iff a bound is present, and the baseline filter iff the threshold is
positive, the baseline body non-empty, and its shingle set non-empty; a
threshold above 1 is clamped to 1. -/
def matcherNew (opts : Options) : Matcher :=
  let hasStatus := decide (0 < opts.statuses.length)
  let hasSizeAny := opts.size.hasMin || opts.size.hasMax
  let shSize : Int := if opts.shingleSize ≤ 0 then 5 else opts.shingleSize
  if opts.similarityThreshold > 0 ∧ opts.baselineBody ≠ [] then
    let threshold := if opts.similarityThreshold > 1 then 1 else opts.similarityThreshold
    let baseline := buildShingles opts.baselineBody shSize
    if baseline ≠ ∅ then
      ⟨opts.statuses, hasStatus, opts.size, hasSizeAny, baseline, true, threshold, shSize⟩
    else
      ⟨opts.statuses, hasStatus, opts.size, hasSizeAny, ∅, false, 0, shSize⟩
  else
    ⟨opts.statuses, hasStatus, opts.size, hasSizeAny, ∅, false, 0, shSize⟩

/-- `Matcher.Evaluate` (pkg/matcher/matcher.go): errors always match; then
the status allow-list, the size range (negative length rejects), and the
baseline similarity filter are applied in order; the similarity is recorded
exactly when the baseline branch computes it. -/
def evaluate (m : Matcher) (res : Result) : MatchOutcome :=
  if res.hasErr then ⟨true, 0, false⟩
  else if m.hasStatus ∧ res.statusCode ∉ m.statuses then ⟨false, 0, false⟩
  else if m.hasSizeAny ∧ (res.contentLength < 0 ∨
      (m.size.hasMin ∧ res.contentLength < m.size.min) ∨
      (m.size.hasMax ∧ res.contentLength > m.size.max)) then ⟨false, 0, false⟩
  else if m.hasBaseline ∧ m.threshold > 0 then
    if res.body = [] then ⟨true, 0, false⟩
    else
      let sh := buildShingles res.body m.shingleSize
      if sh = ∅ then ⟨true, 0, false⟩
      else
        let sim := jaccardSimilarity m.baseline sh
        ⟨decide (sim < m.threshold), sim, true⟩
  else ⟨true, 0, false⟩

/-- `Matcher.Matches` (pkg/matcher/matcher.go). -/
def matcherMatches (m : Matcher) (res : Result) : Bool :=
  (evaluate m res).matched

end Matcher

namespace Engine

open Hydro

/-- `progressStageQuick` (pkg/engine/worker.go). -/
def progressStageQuick : Str := "quick".toList

/-- `progressStagePrimary` (pkg/engine/worker.go). -/
def progressStagePrimary : Str := "primary".toList

/-- `progressStageComplete` (pkg/engine/worker.go). -/
def progressStageComplete : Str := "complete".toList

/-- `progressState` (pkg/engine/worker.go): the persisted cursor. -/
structure ProgressState where
  stage : Str
  wordIndex : Int
  variantIndex : Int
deriving DecidableEq

/-- `progressTracker` (pkg/engine/worker.go): its in-memory state; the
atomic-rename persistence always mirrors this state, so the embedding
carries only the state.  A `nil` tracker (no progress file configured) is an
`Option` at the use sites. -/
structure ProgressTracker where
  hasState : Bool
  state : ProgressState
deriving DecidableEq

/-- `stageRank` (pkg/engine/worker.go): quick 0, primary 1, complete 2,
anything else −1. -/
def stageRank (stage : Str) : Int :=
  if stage = progressStageQuick then 0
  else if stage = progressStagePrimary then 1
  else if stage = progressStageComplete then 2
  else -1

/-- `progressTracker.EnsureStage` (pkg/engine/worker.go): keep the state
when one is loaded and the requested stage does not outrank it, otherwise
reset to `(stage, 0, 0)`. -/
def ensureStage (t : ProgressTracker) (stage : Str) : ProgressTracker :=
  if t.hasState ∧ stageRank stage ≤ stageRank t.state.stage then t
  else ⟨true, ⟨stage, 0, 0⟩⟩

/-- `progressTracker.StageCompleted` (pkg/engine/worker.go). -/
def stageCompleted (t : ProgressTracker) (stage : Str) : Bool :=
  t.hasState && decide (stageRank stage < stageRank t.state.stage)

/-- `progressTracker.Allow` (pkg/engine/worker.go): the cursor `(stage, w,
v)` is allowed when it is at or past the stored cursor in the lexicographic
order on `(stageRank, wordIndex, variantIndex)`. -/
def allow (t : ProgressTracker) (stage : Str) (wordIndex variantIndex : Int) : Bool :=
  if !t.hasState then true
  else
    let cur := stageRank stage
    let stored := stageRank t.state.stage
    if cur < stored then false
    else if cur > stored then true
    else if wordIndex < t.state.wordIndex then false
    else if wordIndex > t.state.wordIndex then true
    else decide (variantIndex ≥ t.state.variantIndex)

/-- `progressTracker.Set` (pkg/engine/worker.go): unconditionally replace
and persist the cursor. -/
def setCursor (t : ProgressTracker) (stage : Str) (wordIndex variantIndex : Int) :
    ProgressTracker :=
  ⟨true, ⟨stage, wordIndex, variantIndex⟩⟩

/-- `Allow` through the `nil` check at the call site (`r.progress != nil`). -/
def allowOpt (t : Option ProgressTracker) (stage : Str) (wordIndex variantIndex : Int) :
    Bool :=
  match t with
  | none => true
  | some tr => allow tr stage wordIndex variantIndex

/-- `Set` through the `nil` check (`updateProgress`, pkg/engine/worker.go). -/
def setOpt (t : Option ProgressTracker) (stage : Str) (wordIndex variantIndex : Int) :
    Option ProgressTracker :=
  t.map fun tr => setCursor tr stage wordIndex variantIndex

/-- `EnsureStage` through the `nil` check. -/
def ensureOpt (t : Option ProgressTracker) (stage : Str) : Option ProgressTracker :=
  t.map fun tr => ensureStage tr stage

/-- `StageCompleted` through the `nil` check. -/
def stageCompletedOpt (t : Option ProgressTracker) (stage : Str) : Bool :=
  match t with
  | none => false
  | some tr => stageCompleted tr stage

/-- The cursor written right after scheduling `(w, v)` for a word with `k`
variants (`stageRunner.run`, pkg/engine/worker.go): `(w, v+1)` unless `v+1`
reaches `k`, in which case `(w+1, 0)`. -/
def nextCursor (w v k : Int) : Int × Int :=
  if v + 1 ≥ k then (w + 1, 0) else (w, v + 1)

/-- One processed `(word_index, variant_index)` pair of the producer loop:
whether the URL was enqueued (or skipped as a known attempt), and the cursor
persisted immediately afterwards (`none` when no progress file is
configured). -/
structure StageEvent where
  wordIndex : Int
  variantIndex : Int
  variantCount : Int
  enqueued : Bool
  after : Option ProgressState
deriving DecidableEq

/-- The producer-side state threaded through `stageRunner.run`'s loop. -/
structure StageState where
  tracker : Option ProgressTracker
  db : Store.AttemptDB
  jobs : List Str
  events : List StageEvent
deriving DecidableEq

/-- The per-stage inputs of `stageRunner.run`: the stage name, the URL
template, the database key of the current run, and whether a run recorder
is attached (`r.runRecorder != nil`). -/
structure StageEnv where
  stage : Str
  target : Str
  runPk : Nat
  hasRecorder : Bool

/-- The variant loop of `stageRunner.run` (pkg/engine/worker.go) for one
word: skip cursors the tracker rejects; otherwise expand the URL, consult
the attempt recorder when present (a known URL only advances the cursor),
and on a new URL enqueue it and advance the cursor.  The pure model covers
the uncancelled, error-free path. -/
def processVariants (env : StageEnv) (w k : Int) :
    Int → List Str → StageState → StageState
  | _, [], st => st
  | v, payload :: rest, st =>
    if !allowOpt st.tracker env.stage w v then
      processVariants env w k (v + 1) rest st
    else
      let url := Templater.expand env.target payload
      let nxt := nextCursor w v k
      if env.hasRecorder then
        let mres := Store.markAttempt st.db env.runPk url
        if !mres.1 then
          let tr := setOpt st.tracker env.stage nxt.1 nxt.2
          processVariants env w k (v + 1) rest
            ⟨tr, mres.2, st.jobs,
              st.events ++ [⟨w, v, k, false, tr.map ProgressTracker.state⟩]⟩
        else
          let tr := setOpt st.tracker env.stage nxt.1 nxt.2
          processVariants env w k (v + 1) rest
            ⟨tr, mres.2, st.jobs ++ [url],
              st.events ++ [⟨w, v, k, true, tr.map ProgressTracker.state⟩]⟩
      else
        let tr := setOpt st.tracker env.stage nxt.1 nxt.2
        processVariants env w k (v + 1) rest
          ⟨tr, st.db, st.jobs ++ [url],
            st.events ++ [⟨w, v, k, true, tr.map ProgressTracker.state⟩]⟩

/-- The line loop of `stageRunner.run` (pkg/engine/worker.go): trim each
line, skip blanks without consuming a word index, expand the payload
variants of each word and process them. -/
def runProducer (env : StageEnv) : List Str → Int → StageState → StageState
  | [], _, st => st
  | line :: rest, w, st =>
    let word := trimSpace line
    if word = [] then runProducer env rest w st
    else
      let payloads := Templater.expandPayload word
      runProducer env rest (w + 1)
        (processVariants env w (payloads.length : Int) 0 payloads st)

/-- The outcome of `stageRunner.run`: the returned positive flag, whether
the wordlist was opened at all, and the final producer state. -/
structure RunOutcome where
  positive : Bool
  openedWordlist : Bool
  final : StageState
deriving DecidableEq

/-- `stageRunner.run` (pkg/engine/worker.go): ensure the stage, return early
without opening the wordlist when the persisted stage already outranks this
one (with the synthetic positive for a quick stage whose persisted stage is
primary), otherwise run the producer over the wordlist lines and advance the
tracker to the configured successor stage.  `workersPositive` stands for the
positive flag the worker pool accumulates from HTTP responses, which is
outside the pure model. -/
def stageRunnerRun (env : StageEnv) (lines : List Str)
    (nextOnSuccess nextOnFailure : Str) (workersPositive : Bool)
    (st : StageState) : RunOutcome :=
  let t1 := ensureOpt st.tracker env.stage
  let st1 : StageState := ⟨t1, st.db, st.jobs, st.events⟩
  if stageCompletedOpt t1 env.stage then
    if env.stage = progressStageQuick ∧
        (match t1 with
          | some tr => decide (tr.state.stage = progressStagePrimary)
          | none => false) = true then
      ⟨true, false, st1⟩
    else ⟨false, false, st1⟩
  else
    let out := runProducer env lines 0 st1
    let nextStage := if workersPositive then nextOnSuccess else nextOnFailure
    let tr := setOpt out.tracker nextStage 0 0
    ⟨workersPositive, true, ⟨tr, out.db, out.jobs, out.events⟩⟩

/-- The stage sequencing of `Run`'s goroutine (pkg/engine/worker.go): when
quick mode is enabled, run the quick stage with successors
`(primary, complete)` and stop unless it is positive; then run the primary
stage with successors `(complete, complete)`. -/
def runStages (quickEnabled : Bool) (target : Str) (runPk : Nat)
    (hasRecorder : Bool) (quickLines primaryLines : List Str)
    (posQuick posPrimary : Bool) (st : StageState) :
    Option RunOutcome × Option RunOutcome :=
  if quickEnabled then
    let r1 := stageRunnerRun ⟨progressStageQuick, target, runPk, hasRecorder⟩
      quickLines progressStagePrimary progressStageComplete posQuick st
    if !r1.positive then (some r1, none)
    else
      (some r1, some (stageRunnerRun ⟨progressStagePrimary, target, runPk, hasRecorder⟩
        primaryLines progressStageComplete progressStageComplete posPrimary r1.final))
  else
    (none, some (stageRunnerRun ⟨progressStagePrimary, target, runPk, hasRecorder⟩
      primaryLines progressStageComplete progressStageComplete posPrimary st))

/-- Strict lexicographic order on `(stage rank, word index, variant index)`
triples, the order of the spec's cursor-domination invariant. -/
def cursorLt (a b : Int × Int × Int) : Prop :=
  a.1 < b.1 ∨ (a.1 = b.1 ∧ (a.2.1 < b.2.1 ∨ (a.2.1 = b.2.1 ∧ a.2.2 < b.2.2)))

instance (a b : Int × Int × Int) : Decidable (cursorLt a b) := by
  unfold cursorLt
  infer_instance

end Engine

namespace Examples

/-! Concrete inputs used by counterexamples and witnesses. -/

/-- A sample URL path. -/
def exPath : Str := "http://h/a".toList

/-- An empty attempt table. -/
def exDB0 : Store.AttemptDB := ⟨[]⟩

/-- Config entry `a=1`. -/
def exA1 : Str := "a=1".toList

/-- Config entry `b=2` with surrounding whitespace (normalization trims it). -/
def exB2sp : Str := " b=2 ".toList

/-- Config entry `b=2`. -/
def exB2 : Str := "b=2".toList

/-- A wordlist path entry. -/
def exWl : Str := "w.txt".toList

/-- Config list in one insertion order. -/
def exCfgA : List Str := [exB2sp, exA1]

/-- The same config entries in the other order. -/
def exCfgB : List Str := [exA1, exB2]

/-- Payload list. -/
def exPay : List Str := [exWl]

/-- The brace payload `{a,b}`. -/
def exBrace : Str := "\x7ba,b\x7d".toList

/-- The zero-padded range payload `x[01-03]`. -/
def exRangePad : Str := "x[01-03]".toList

/-- The decreasing range payload `x[3-1]`. -/
def exRangeDec : Str := "x[3-1]".toList

/-- Payload `a`. -/
def exA : Str := "a".toList

/-- Payload `b`. -/
def exB : Str := "b".toList

/-- Payload `x01`. -/
def exX01 : Str := "x01".toList

/-- Payload `x02`. -/
def exX02 : Str := "x02".toList

/-- Payload `x03`. -/
def exX03 : Str := "x03".toList

/-- Payload `x3`. -/
def exX3 : Str := "x3".toList

/-- Payload `x2`. -/
def exX2 : Str := "x2".toList

/-- Payload `x1`. -/
def exX1 : Str := "x1".toList

/-- A size range with no bounds. -/
def noSize : Matcher.SizeRange := ⟨0, 0, false, false⟩

/-- A six-token baseline body. -/
def exBaseline : Str := "a b c d e f".toList

/-- Matcher options with an active baseline at threshold 1. -/
def cxOptsHigh : Matcher.Options := ⟨[], noSize, exBaseline, 1, 0⟩

/-- The same options with the similarity threshold lowered to 0. -/
def cxOptsLow : Matcher.Options := ⟨[], noSize, exBaseline, 0, 0⟩

/-- A result whose body equals the baseline body. -/
def cxRes : Matcher.Result := ⟨200, 10, exBaseline, false⟩

/-- Matcher options with a status allow-list and an active baseline. -/
def cxOpts9 : Matcher.Options := ⟨[200], noSize, exBaseline, 1, 0⟩

/-- A status-rejected result with a non-empty body. -/
def cxRes9 : Matcher.Result := ⟨404, 10, "hello world body".toList, false⟩

/-- Options for the tightening witness: allow-list `[200, 404]`. -/
def wOptsLoose : Matcher.Options := ⟨[200, 404], noSize, [], 0, 0⟩

/-- The same options tightened to the allow-list `[200]`. -/
def wOptsTight : Matcher.Options := ⟨[200], noSize, [], 0, 0⟩

/-- A status-200 result. -/
def wRes : Matcher.Result := ⟨200, 10, [], false⟩

/-- Options with similarity threshold 2 (above 1) for the clamping witness. -/
def wOptsClamp : Matcher.Options := ⟨[], noSize, exBaseline, 2, 0⟩

/-- Options with similarity threshold 0 for the inactivity witness. -/
def wOptsZero : Matcher.Options := ⟨[], noSize, exBaseline, 0, 0⟩

/-- The C7 template `http://h/{{FUZZ}}/x-FUZZ`, which contains both the
doubled and the bare placeholder. -/
def exTemplate7 : Str := "http://h/\x7b\x7bFUZZ\x7d\x7d/x-FUZZ".toList

/-- The part of the C7 template before the doubled placeholder. -/
def exPre7 : Str := "http://h/".toList

/-- The part of the C7 template between the two placeholders. -/
def exMid7 : Str := "/x-".toList

/-- The part of the C7 template after the doubled placeholder. -/
def exSuf7 : Str := "/x-FUZZ".toList

/-- The literal run between the bare placeholder and the format token in the
C7 witness template. -/
def exQ7 : Str := "/q-".toList

/-- A pieces decomposition containing all three placeholder kinds. -/
def exPieces7 : List Templater.Piece :=
  [Templater.Piece.lit exPre7, Templater.Piece.double, Templater.Piece.lit exMid7,
    Templater.Piece.plain, Templater.Piece.lit exQ7, Templater.Piece.format]

/-- The template assembled from `exPieces7`:
`http://h/\x7b\x7bFUZZ\x7d\x7d/x-FUZZ/q-%s`. -/
def exTemplate3 : Str := "http://h/\x7b\x7bFUZZ\x7d\x7d/x-FUZZ/q-%s".toList

/-- The expected expansion of that template with payload `p`. -/
def exResult3 : Str := "http://h/p/x-p/q-p".toList

/-- A placeholder-free template. -/
def exPlainTpl : Str := "http://x".toList

/-- A placeholder-free payload. -/
def exP : Str := "p".toList

/-- A tracker whose persisted stage is `complete`. -/
def trComplete : Engine.ProgressTracker := ⟨true, ⟨Engine.progressStageComplete, 3, 1⟩⟩

/-- A tracker whose persisted stage is `primary`. -/
def trPrimary : Engine.ProgressTracker := ⟨true, ⟨Engine.progressStagePrimary, 3, 1⟩⟩

/-- A fresh tracker with no loaded state. -/
def trFresh : Engine.ProgressTracker := ⟨false, ⟨[], 0, 0⟩⟩

/-- A quick-stage environment over the template `t/FUZZ` without a recorder. -/
def envQuick3 : Engine.StageEnv := ⟨Engine.progressStageQuick, "t/FUZZ".toList, 1, false⟩

/-- The producer state at the start of a run: fresh tracker, empty attempt
table, nothing enqueued. -/
def stFresh : Engine.StageState := ⟨some trFresh, exDB0, [], []⟩

/-- A single-word wordlist. -/
def exLines3 : List Str := [exA]

/-- A wordlist line for the C4 witness. -/
def exLines4 : List Str := [exA]

end Examples

namespace Matcher

/-- The claim's "tightening" of the match rules, restricted to the changes
that keep every touched rule active: a status allow-list may be added where
none was configured, or shrunk to a non-empty subset; a size bound may be
added or narrowed; the similarity threshold may be lowered while staying
positive, with the baseline body and shingle size unchanged. -/
def tightens (o' o : Options) : Prop :=
  (o.statuses ≠ [] → o'.statuses ≠ [] ∧ ∀ c ∈ o'.statuses, c ∈ o.statuses) ∧
  (o.size.hasMin = true → o'.size.hasMin = true ∧ o.size.min ≤ o'.size.min) ∧
  (o.size.hasMax = true → o'.size.hasMax = true ∧ o'.size.max ≤ o.size.max) ∧
  (0 < o.similarityThreshold → 0 < o'.similarityThreshold ∧
    o'.similarityThreshold ≤ o.similarityThreshold) ∧
  o'.baselineBody = o.baselineBody ∧ o'.shingleSize = o.shingleSize

instance tightensDecidable (o' o : Options) : Decidable (tightens o' o) := by
  unfold tightens
  infer_instance

end Matcher

/-! ## Theorems -/

section StoreTheorems

open Hydro Store Examples

/-- Two sorted lists that are permutations of each other are equal, so the
sort is invariant under permutation of its input. -/
theorem sortStrings_perm {l1 l2 : List Str} (h : l1.Perm l2) :
    sortStrings l1 = sortStrings l2 := by
  have hs1 : List.Sorted (fun a b : Str => a ≤ b) (sortStrings l1) :=
    List.sorted_insertionSort _ l1
  have hs2 : List.Sorted (fun a b : Str => a ≤ b) (sortStrings l2) :=
    List.sorted_insertionSort _ l2
  exact List.eq_of_perm_of_sorted
    ((List.perm_insertionSort _ l1).trans (h.trans (List.perm_insertionSort _ l2).symm))
    hs1 hs2

/-- `MarkAttempt` returns `true` exactly when the path was absent. -/
theorem markAttempt_fst (db : Store.AttemptDB) (pk : Nat) (path : Str) :
    (markAttempt db pk path).1 = !(decide (path ∈ db.paths)) := by
  by_cases h : path ∈ db.paths <;> simp [markAttempt, h]

/-- After `MarkAttempt`, the path is present. -/
theorem markAttempt_mem (db : Store.AttemptDB) (pk : Nat) (path : Str) :
    path ∈ (markAttempt db pk path).2.paths := by
  by_cases h : path ∈ db.paths
  · rcases List.mem_map.mp h with ⟨r, hr, hfst⟩
    have hfr : (fun r : Str × Nat => if r.1 = path then (path, pk) else r) r = (path, pk) := by
      show (if r.1 = path then (path, pk) else r) = (path, pk)
      rw [if_pos hfst]
    simp only [markAttempt, if_pos h]
    simp only [AttemptDB.paths, List.mem_map]
    exact ⟨(path, pk), ⟨r, hr, hfr⟩, rfl⟩
  · simp only [markAttempt, if_neg h]
    simp [AttemptDB.paths]

/-- C1 counterexample: the claim asserts that a URL already recorded under
one run identity is again reported as new on its first call under a
different identity; with the path-only primary key of `path_attempted`,
`MarkAttempt` under run key 2 returns `false` for a URL first recorded under
run key 1. -/
theorem c1_markAttempt_cross_identity_not_new :
    (markAttempt exDB0 1 exPath).1 = true ∧
    (markAttempt (markAttempt exDB0 1 exPath).2 2 exPath).1 = false := by
  decide

/-- C1 (amended): `MarkAttempt` reports a URL as new exactly once across the
whole store, regardless of run identity: the insert succeeds if and only if
the path is not yet present, the path is present afterwards, and every later
call for that path — under any run key — returns `false`. -/
theorem c1_markAttempt_new_once_globally (db : Store.AttemptDB) (runPk : Nat) (path : Str) :
    ((markAttempt db runPk path).1 = true ↔ path ∉ db.paths) ∧
    path ∈ (markAttempt db runPk path).2.paths ∧
    ∀ runPk2 : Nat, (markAttempt (markAttempt db runPk path).2 runPk2 path).1 = false := by
  refine ⟨?_, markAttempt_mem db runPk path, fun runPk2 => ?_⟩
  · rw [markAttempt_fst]
    simp
  · rw [markAttempt_fst]
    simp [markAttempt_mem db runPk path]

/-- C2: the run-identity digest is invariant under reordering of the config
list and of the payload list (after normalization), for any digest
function, because both lists are sorted before serialization. -/
theorem c2_identity_perm_invariant (digest : Str → Str) (c1 c2 p1 p2 : List Str)
    (hc : (normalizeList c1).Perm (normalizeList c2))
    (hp : (normalizeList p1).Perm (normalizeList p2)) :
    computeIdentity digest c1 p1 = computeIdentity digest c2 p2 := by
  unfold computeIdentity hashFromLists hashInput
  rw [sortStrings_perm hc, sortStrings_perm hp]

/-- Witness for C2 at the spec's scenario E: `[" b=2 ", "a=1"]` versus
`["a=1", "b=2"]` with the same payload list. -/
theorem c2_identity_perm_invariant_witness :
    (normalizeList exCfgA).Perm (normalizeList exCfgB) ∧
    (normalizeList exPay).Perm (normalizeList exPay) ∧
    computeIdentity id exCfgA exPay = computeIdentity id exCfgB exPay := by
  refine ⟨by decide, by decide, ?_⟩
  exact c2_identity_perm_invariant id exCfgA exCfgB exPay exPay (by decide) (by decide)

end StoreTheorems

section TemplaterTheoremsC8

open Hydro Templater Examples

/-- C8: `expandPayload` (a pure Lean function of its argument) satisfies the
four specified equations: brace alternation, a zero-padded increasing range,
a decreasing range, and the empty line yielding the single empty payload. -/
theorem c8_expand_payload_examples :
    expandPayload exBrace = [exA, exB] ∧
    expandPayload exRangePad = [exX01, exX02, exX03] ∧
    expandPayload exRangeDec = [exX3, exX2, exX1] ∧
    expandPayload [] = [([] : Str)] := by
  refine ⟨?_, ?_, ?_, ?_⟩ <;> decide

end TemplaterTheoremsC8

section EngineTheoremsC4

open Hydro Engine Examples

/-- Rank of the quick stage. -/
theorem stageRank_quick : stageRank progressStageQuick = 0 := by decide

/-- Rank of the primary stage. -/
theorem stageRank_primary : stageRank progressStagePrimary = 1 := by decide

/-- Rank of the complete stage. -/
theorem stageRank_complete : stageRank progressStageComplete = 2 := by decide

/-- The stage names are pairwise distinct. -/
theorem complete_ne_primary :
    decide (progressStageComplete = progressStagePrimary) = false := by decide

/-- The stored `primary` stage satisfies the synthetic-positive test. -/
theorem primary_eq_primary :
    decide (progressStagePrimary = progressStagePrimary) = true := by decide

/-- C4: with a loaded progress state, a persisted `complete` stage makes
both the quick and the primary stage runner return `(positive := false)`
without opening their wordlists and leaves the whole run with no stage
work under either orchestrator mode, while a persisted `primary` stage
makes the quick stage return a synthetic positive without opening its
wordlist, so the orchestrator proceeds to the primary stage. -/
theorem c4_resume_decisions (target : Str) (runPk : Nat) (hasRecorder : Bool)
    (quickLines primaryLines : List Str) (posQuick posPrimary : Bool)
    (db : Store.AttemptDB) (tr : Engine.ProgressTracker) (hs : tr.hasState = true) :
    (tr.state.stage = progressStageComplete →
      stageRunnerRun ⟨progressStageQuick, target, runPk, hasRecorder⟩ quickLines
          progressStagePrimary progressStageComplete posQuick ⟨some tr, db, [], []⟩ =
        ⟨false, false, ⟨some tr, db, [], []⟩⟩ ∧
      stageRunnerRun ⟨progressStagePrimary, target, runPk, hasRecorder⟩ primaryLines
          progressStageComplete progressStageComplete posPrimary ⟨some tr, db, [], []⟩ =
        ⟨false, false, ⟨some tr, db, [], []⟩⟩ ∧
      runStages true target runPk hasRecorder quickLines primaryLines posQuick posPrimary
          ⟨some tr, db, [], []⟩ =
        (some ⟨false, false, ⟨some tr, db, [], []⟩⟩, none) ∧
      runStages false target runPk hasRecorder quickLines primaryLines posQuick posPrimary
          ⟨some tr, db, [], []⟩ =
        (none, some ⟨false, false, ⟨some tr, db, [], []⟩⟩)) ∧
    (tr.state.stage = progressStagePrimary →
      stageRunnerRun ⟨progressStageQuick, target, runPk, hasRecorder⟩ quickLines
          progressStagePrimary progressStageComplete posQuick ⟨some tr, db, [], []⟩ =
        ⟨true, false, ⟨some tr, db, [], []⟩⟩ ∧
      runStages true target runPk hasRecorder quickLines primaryLines posQuick posPrimary
          ⟨some tr, db, [], []⟩ =
        (some ⟨true, false, ⟨some tr, db, [], []⟩⟩,
          some (stageRunnerRun ⟨progressStagePrimary, target, runPk, hasRecorder⟩ primaryLines
            progressStageComplete progressStageComplete posPrimary ⟨some tr, db, [], []⟩))) := by
  constructor
  · intro hstage
    have hq : stageRunnerRun ⟨progressStageQuick, target, runPk, hasRecorder⟩ quickLines
        progressStagePrimary progressStageComplete posQuick ⟨some tr, db, [], []⟩ =
        ⟨false, false, ⟨some tr, db, [], []⟩⟩ := by
      simp [stageRunnerRun, ensureOpt, ensureStage, stageCompletedOpt, stageCompleted,
        hs, hstage, stageRank_quick, stageRank_complete, complete_ne_primary] <;> decide
    have hp : stageRunnerRun ⟨progressStagePrimary, target, runPk, hasRecorder⟩ primaryLines
        progressStageComplete progressStageComplete posPrimary ⟨some tr, db, [], []⟩ =
        ⟨false, false, ⟨some tr, db, [], []⟩⟩ := by
      simp [stageRunnerRun, ensureOpt, ensureStage, stageCompletedOpt, stageCompleted,
        hs, hstage, stageRank_primary, stageRank_complete] <;> decide
    refine ⟨hq, hp, ?_, ?_⟩
    · simp [runStages, hq]
    · simp [runStages, hp]
  · intro hstage
    have hq : stageRunnerRun ⟨progressStageQuick, target, runPk, hasRecorder⟩ quickLines
        progressStagePrimary progressStageComplete posQuick ⟨some tr, db, [], []⟩ =
        ⟨true, false, ⟨some tr, db, [], []⟩⟩ := by
      simp [stageRunnerRun, ensureOpt, ensureStage, stageCompletedOpt, stageCompleted,
        hs, hstage, stageRank_quick, stageRank_primary, primary_eq_primary] <;> decide
    exact ⟨hq, by simp [runStages, hq]⟩

end EngineTheoremsC4

section EngineTheoremsC3

open Hydro Engine Examples

/-- The next cursor strictly dominates the scheduled pair in the
lexicographic order, whatever the variant count. -/
theorem nextCursor_lt (r w v k : Int) :
    cursorLt (r, w, v) (r, (nextCursor w v k).1, (nextCursor w v k).2) := by
  unfold nextCursor cursorLt
  by_cases h : v + 1 ≥ k <;> simp [h] <;> omega

/-- A persisted state read back from `Set` is exactly the written cursor. -/
theorem setOpt_state (t : Option ProgressTracker) (stage : Str) (w v : Int)
    (ps : ProgressState) :
    (setOpt t stage w v).map ProgressTracker.state = some ps → ps = ⟨stage, w, v⟩ := by
  cases t with
  | none => simp [setOpt]
  | some tr =>
    intro h
    simp [setOpt, setCursor] at h
    exact h.symm

/-- Every event appended by the variant loop records, as the persisted
cursor, the stage and the advancement rule's next pair. -/
theorem processVariants_events_spec (env : Engine.StageEnv) (w k : Int)
    (payloads : List Str) :
    ∀ (v : Int) (st : Engine.StageState),
      (∀ ev ∈ st.events, ∀ ps : ProgressState, ev.after = some ps →
        ps.stage = env.stage ∧
        (ps.wordIndex, ps.variantIndex) = nextCursor ev.wordIndex ev.variantIndex ev.variantCount) →
      ∀ ev ∈ (processVariants env w k v payloads st).events,
        ∀ ps : ProgressState, ev.after = some ps →
          ps.stage = env.stage ∧
          (ps.wordIndex, ps.variantIndex) = nextCursor ev.wordIndex ev.variantIndex ev.variantCount := by
  induction payloads with
  | nil =>
    intro v st hinv
    simpa [processVariants] using hinv
  | cons payload rest ih =>
    intro v st hinv
    have hstep : ∀ b : Bool,
        ∀ ev ∈ (st.events ++
            [⟨w, v, k, b, (setOpt st.tracker env.stage (nextCursor w v k).1
              (nextCursor w v k).2).map ProgressTracker.state⟩]),
          ∀ ps : ProgressState, ev.after = some ps →
            ps.stage = env.stage ∧
            (ps.wordIndex, ps.variantIndex) =
              nextCursor ev.wordIndex ev.variantIndex ev.variantCount := by
      intro b ev hev ps hps
      rcases List.mem_append.mp hev with hmem | hmem
      · exact hinv ev hmem ps hps
      · have hev' : ev = ⟨w, v, k, b, (setOpt st.tracker env.stage (nextCursor w v k).1
            (nextCursor w v k).2).map ProgressTracker.state⟩ := by
          simpa using hmem
        subst hev'
        have hps' := setOpt_state st.tracker env.stage (nextCursor w v k).1
          (nextCursor w v k).2 ps hps
        subst hps'
        exact ⟨rfl, rfl⟩
    by_cases hallow : allowOpt st.tracker env.stage w v = true
    · by_cases hrec : env.hasRecorder = true
      · by_cases hnew : (Store.markAttempt st.db env.runPk
            (Templater.expand env.target payload)).1 = true
        · have heq : processVariants env w k v (payload :: rest) st =
              processVariants env w k (v + 1) rest
                ⟨setOpt st.tracker env.stage (nextCursor w v k).1 (nextCursor w v k).2,
                  (Store.markAttempt st.db env.runPk (Templater.expand env.target payload)).2,
                  st.jobs ++ [Templater.expand env.target payload],
                  st.events ++ [⟨w, v, k, true,
                    (setOpt st.tracker env.stage (nextCursor w v k).1
                      (nextCursor w v k).2).map ProgressTracker.state⟩]⟩ := by
            simp [processVariants, hallow, hrec, hnew]
          rw [heq]
          exact ih (v + 1) _ (hstep true)
        · have hnew' : (Store.markAttempt st.db env.runPk
              (Templater.expand env.target payload)).1 = false := by
            simpa using hnew
          have heq : processVariants env w k v (payload :: rest) st =
              processVariants env w k (v + 1) rest
                ⟨setOpt st.tracker env.stage (nextCursor w v k).1 (nextCursor w v k).2,
                  (Store.markAttempt st.db env.runPk (Templater.expand env.target payload)).2,
                  st.jobs,
                  st.events ++ [⟨w, v, k, false,
                    (setOpt st.tracker env.stage (nextCursor w v k).1
                      (nextCursor w v k).2).map ProgressTracker.state⟩]⟩ := by
            simp [processVariants, hallow, hrec, hnew']
          rw [heq]
          exact ih (v + 1) _ (hstep false)
      · have hrec' : env.hasRecorder = false := by
          simpa using hrec
        have heq : processVariants env w k v (payload :: rest) st =
            processVariants env w k (v + 1) rest
              ⟨setOpt st.tracker env.stage (nextCursor w v k).1 (nextCursor w v k).2,
                st.db,
                st.jobs ++ [Templater.expand env.target payload],
                st.events ++ [⟨w, v, k, true,
                  (setOpt st.tracker env.stage (nextCursor w v k).1
                    (nextCursor w v k).2).map ProgressTracker.state⟩]⟩ := by
          simp [processVariants, hallow, hrec']
        rw [heq]
        exact ih (v + 1) _ (hstep true)
    · have hallow' : allowOpt st.tracker env.stage w v = false := by
        simpa using hallow
      have heq : processVariants env w k v (payload :: rest) st =
          processVariants env w k (v + 1) rest st := by
        simp [processVariants, hallow']
      rw [heq]
      exact ih (v + 1) st hinv

/-- Every event appended by the line loop records the stage and the
advancement rule's next pair. -/
theorem runProducer_events_spec (env : Engine.StageEnv) (lines : List Str) :
    ∀ (w : Int) (st : Engine.StageState),
      (∀ ev ∈ st.events, ∀ ps : ProgressState, ev.after = some ps →
        ps.stage = env.stage ∧
        (ps.wordIndex, ps.variantIndex) = nextCursor ev.wordIndex ev.variantIndex ev.variantCount) →
      ∀ ev ∈ (runProducer env lines w st).events,
        ∀ ps : ProgressState, ev.after = some ps →
          ps.stage = env.stage ∧
          (ps.wordIndex, ps.variantIndex) = nextCursor ev.wordIndex ev.variantIndex ev.variantCount := by
  induction lines with
  | nil =>
    intro w st hinv
    simpa [runProducer] using hinv
  | cons line rest ih =>
    intro w st hinv
    by_cases hblank : trimSpace line = []
    · simp only [runProducer, if_pos hblank]
      exact ih w st hinv
    · simp only [runProducer, if_neg hblank]
      exact ih (w + 1) _ (processVariants_events_spec env w _ _ 0 st hinv)

/-- C3: every progress cursor persisted by the stage runner immediately
after processing a scheduled pair `(w, v)` is exactly the advancement
rule's `(w, v+1)` / `(w+1, 0)` next pair for the stage, and it strictly
dominates `(w, v)` in the lexicographic order on
`(stage rank, word index, variant index)`. -/
theorem c3_cursor_strictly_advances (stage target : Str) (runPk : Nat)
    (hasRecorder : Bool) (lines : List Str) (ns nf : Str) (pos : Bool)
    (tracker : Option Engine.ProgressTracker) (db : Store.AttemptDB)
    (ev : Engine.StageEvent) (ps : Engine.ProgressState)
    (hev : ev ∈ (stageRunnerRun ⟨stage, target, runPk, hasRecorder⟩ lines ns nf pos
        ⟨tracker, db, [], []⟩).final.events)
    (hps : ev.after = some ps) :
    ps.stage = stage ∧
    (ps.wordIndex, ps.variantIndex) = nextCursor ev.wordIndex ev.variantIndex ev.variantCount ∧
    cursorLt (stageRank stage, ev.wordIndex, ev.variantIndex)
      (stageRank ps.stage, ps.wordIndex, ps.variantIndex) := by
  have hmain : ps.stage = stage ∧
      (ps.wordIndex, ps.variantIndex) =
        nextCursor ev.wordIndex ev.variantIndex ev.variantCount := by
    by_cases hc : stageCompletedOpt (ensureOpt tracker stage) stage = true
    · exfalso
      simp only [stageRunnerRun, hc, if_true] at hev
      split at hev <;> simp at hev
    · simp only [stageRunnerRun, hc, Bool.false_eq_true, if_false] at hev
      exact runProducer_events_spec ⟨stage, target, runPk, hasRecorder⟩ lines 0
        ⟨ensureOpt tracker stage, db, [], []⟩ (by intro ev hev; simp at hev) ev hev ps hps
  refine ⟨hmain.1, hmain.2, ?_⟩
  have hlt := nextCursor_lt (stageRank stage) ev.wordIndex ev.variantIndex ev.variantCount
  have h1 : ps.wordIndex = (nextCursor ev.wordIndex ev.variantIndex ev.variantCount).1 :=
    congrArg Prod.fst hmain.2
  have h2 : ps.variantIndex = (nextCursor ev.wordIndex ev.variantIndex ev.variantCount).2 :=
    congrArg Prod.snd hmain.2
  rw [hmain.1, h1, h2]
  exact hlt

/-- Witness for C3: the single-word run over the template `t/FUZZ` schedules
`(0, 0)` with one variant and persists cursor `(1, 0)`, which strictly
dominates it. -/
theorem c3_cursor_strictly_advances_witness :
    ((⟨0, 0, 1, true, some ⟨progressStageQuick, 1, 0⟩⟩ : Engine.StageEvent) ∈
      (stageRunnerRun ⟨progressStageQuick, envQuick3.target, 1, false⟩ exLines3
        progressStagePrimary progressStageComplete false
        ⟨some trFresh, exDB0, [], []⟩).final.events) ∧
    ((⟨0, 0, 1, true, some ⟨progressStageQuick, 1, 0⟩⟩ : Engine.StageEvent).after =
      some ⟨progressStageQuick, 1, 0⟩) ∧
    ((⟨progressStageQuick, 1, 0⟩ : Engine.ProgressState).stage = progressStageQuick ∧
      (((⟨progressStageQuick, 1, 0⟩ : Engine.ProgressState).wordIndex,
        (⟨progressStageQuick, 1, 0⟩ : Engine.ProgressState).variantIndex) =
          nextCursor 0 0 1) ∧
      cursorLt (stageRank progressStageQuick, 0, 0)
        (stageRank (⟨progressStageQuick, 1, 0⟩ : Engine.ProgressState).stage, 1, 0)) :=
  ⟨by decide, by decide,
    c3_cursor_strictly_advances progressStageQuick envQuick3.target 1 false exLines3
      progressStagePrimary progressStageComplete false (some trFresh) exDB0
      ⟨0, 0, 1, true, some ⟨progressStageQuick, 1, 0⟩⟩ ⟨progressStageQuick, 1, 0⟩
      (by decide) (by decide)⟩

end EngineTheoremsC3

section EngineTheoremsC4Witness

open Hydro Engine Examples

/-- Witness for C4: the tracker persisted at stage `complete` satisfies the
theorem's hypothesis, and the instantiated conclusion holds for a concrete
run. -/
theorem c4_resume_decisions_witness :
    trComplete.hasState = true ∧
    ((trComplete.state.stage = progressStageComplete →
      stageRunnerRun ⟨progressStageQuick, exPlainTpl, 1, false⟩ exLines4
          progressStagePrimary progressStageComplete true ⟨some trComplete, exDB0, [], []⟩ =
        ⟨false, false, ⟨some trComplete, exDB0, [], []⟩⟩ ∧
      stageRunnerRun ⟨progressStagePrimary, exPlainTpl, 1, false⟩ exLines4
          progressStageComplete progressStageComplete true ⟨some trComplete, exDB0, [], []⟩ =
        ⟨false, false, ⟨some trComplete, exDB0, [], []⟩⟩ ∧
      runStages true exPlainTpl 1 false exLines4 exLines4 true true
          ⟨some trComplete, exDB0, [], []⟩ =
        (some ⟨false, false, ⟨some trComplete, exDB0, [], []⟩⟩, none) ∧
      runStages false exPlainTpl 1 false exLines4 exLines4 true true
          ⟨some trComplete, exDB0, [], []⟩ =
        (none, some ⟨false, false, ⟨some trComplete, exDB0, [], []⟩⟩)) ∧
    (trComplete.state.stage = progressStagePrimary →
      stageRunnerRun ⟨progressStageQuick, exPlainTpl, 1, false⟩ exLines4
          progressStagePrimary progressStageComplete true ⟨some trComplete, exDB0, [], []⟩ =
        ⟨true, false, ⟨some trComplete, exDB0, [], []⟩⟩ ∧
      runStages true exPlainTpl 1 false exLines4 exLines4 true true
          ⟨some trComplete, exDB0, [], []⟩ =
        (some ⟨true, false, ⟨some trComplete, exDB0, [], []⟩⟩,
          some (stageRunnerRun ⟨progressStagePrimary, exPlainTpl, 1, false⟩ exLines4
            progressStageComplete progressStageComplete true
            ⟨some trComplete, exDB0, [], []⟩)))) :=
  ⟨by decide,
    c4_resume_decisions exPlainTpl 1 false exLines4 exLines4 true true exDB0 trComplete
      (by decide)⟩

end EngineTheoremsC4Witness

section MatcherTheoremsC6

open Hydro Matcher

/-- Defining equation of `jaccardSimilarity` with the local bindings
expanded. -/
theorem jaccardSimilarity_def (a b : Finset Str) :
    jaccardSimilarity a b =
      if a = ∅ ∨ b = ∅ then 0
      else if a.card + b.card - (a ∩ b).card = 0 then 0
      else ((a ∩ b).card : ℚ) / ((a.card + b.card - (a ∩ b).card : ℕ) : ℚ) := rfl

/-- The Jaccard similarity is non-negative. -/
theorem jaccard_nonneg (a b : Finset Str) : 0 ≤ jaccardSimilarity a b := by
  rw [jaccardSimilarity_def]
  split_ifs
  · exact le_refl (0 : ℚ)
  · exact le_refl (0 : ℚ)
  · positivity

/-- The intersection is no larger than the denominator. -/
theorem jaccard_card_le (a b : Finset Str) :
    (a ∩ b).card ≤ a.card + b.card - (a ∩ b).card := by
  have h1 : (a ∩ b).card ≤ a.card := Finset.card_le_card Finset.inter_subset_left
  have h2 : (a ∩ b).card ≤ b.card := Finset.card_le_card Finset.inter_subset_right
  omega

/-- The Jaccard similarity is at most 1. -/
theorem jaccard_le_one (a b : Finset Str) : jaccardSimilarity a b ≤ 1 := by
  rw [jaccardSimilarity_def]
  split_ifs with h1 h2
  · exact zero_le_one
  · exact zero_le_one
  · have hle : (a ∩ b).card ≤ a.card + b.card - (a ∩ b).card := jaccard_card_le a b
    have hpos : (0 : ℚ) < ((a.card + b.card - (a ∩ b).card : ℕ) : ℚ) := by
      have h3 : 0 < a.card + b.card - (a ∩ b).card := Nat.pos_of_ne_zero h2
      exact_mod_cast h3
    rw [div_le_one hpos]
    exact_mod_cast hle

/-- The Jaccard similarity is symmetric. -/
theorem jaccard_symm (a b : Finset Str) :
    jaccardSimilarity a b = jaccardSimilarity b a := by
  rw [jaccardSimilarity_def, jaccardSimilarity_def, Finset.inter_comm b a,
    Nat.add_comm b.card a.card]
  by_cases ha : a = ∅ <;> by_cases hb : b = ∅ <;> simp [ha, hb]

/-- The Jaccard similarity is 1 exactly when the two sets are equal and
non-empty. -/
theorem jaccard_eq_one_iff (a b : Finset Str) :
    jaccardSimilarity a b = 1 ↔ a = b ∧ a ≠ ∅ := by
  rw [jaccardSimilarity_def]
  constructor
  · intro h
    split_ifs at h with h1 h2
    · exact absurd h (by norm_num)
    · exact absurd h (by norm_num)
    · push_neg at h1
      have hpos : 0 < a.card + b.card - (a ∩ b).card := Nat.pos_of_ne_zero h2
      have hne : ((a.card + b.card - (a ∩ b).card : ℕ) : ℚ) ≠ 0 := by
        exact_mod_cast Nat.pos_iff_ne_zero.mp hpos
      have hcast : ((a ∩ b).card : ℚ) = ((a.card + b.card - (a ∩ b).card : ℕ) : ℚ) :=
        (div_eq_one_iff_eq hne).mp h
      have hcards : (a ∩ b).card = a.card + b.card - (a ∩ b).card := by exact_mod_cast hcast
      have hunion : (a ∪ b).card = a.card + b.card - (a ∩ b).card := by
        have h4 := Finset.card_union_add_card_inter a b
        omega
      have heq : a ∩ b = a ∪ b := by
        apply Finset.eq_of_subset_of_card_le Finset.inter_subset_union
        omega
      have hab : a = b := by
        apply Finset.Subset.antisymm
        · calc a ⊆ a ∪ b := Finset.subset_union_left
            _ = a ∩ b := heq.symm
            _ ⊆ b := Finset.inter_subset_right
        · calc b ⊆ a ∪ b := Finset.subset_union_right
            _ = a ∩ b := heq.symm
            _ ⊆ a := Finset.inter_subset_left
      exact ⟨hab, h1.1⟩
  · rintro ⟨rfl, hne⟩
    have hcard : 0 < a.card := Finset.card_pos.mpr (Finset.nonempty_of_ne_empty hne)
    rw [if_neg (by simp [hne]), Finset.inter_self]
    have hu : a.card + a.card - a.card = a.card := by omega
    rw [hu, if_neg (by omega)]
    have hq : ((a.card : ℕ) : ℚ) ≠ 0 := by
      exact_mod_cast Nat.pos_iff_ne_zero.mp hcard
    field_simp

/-- C6: for shingle sets built from a baseline and a body, the Jaccard
similarity lies in `[0, 1]`, is symmetric in its two arguments, and equals 1
exactly when the two shingle sets are equal and non-empty. -/
theorem c6_jaccard_properties (baseline body : Str) (n1 n2 : Int) :
    0 ≤ jaccardSimilarity (buildShingles baseline n1) (buildShingles body n2) ∧
    jaccardSimilarity (buildShingles baseline n1) (buildShingles body n2) ≤ 1 ∧
    jaccardSimilarity (buildShingles baseline n1) (buildShingles body n2) =
      jaccardSimilarity (buildShingles body n2) (buildShingles baseline n1) ∧
    (jaccardSimilarity (buildShingles baseline n1) (buildShingles body n2) = 1 ↔
      buildShingles baseline n1 = buildShingles body n2 ∧
        buildShingles baseline n1 ≠ ∅) :=
  ⟨jaccard_nonneg _ _, jaccard_le_one _ _, jaccard_symm _ _, jaccard_eq_one_iff _ _⟩

end MatcherTheoremsC6

section MatcherTheoremsC10

open Hydro Matcher Examples

/-- Defining equation of `matcherNew` with the local bindings expanded. -/
theorem matcherNew_def (opts : Matcher.Options) :
    matcherNew opts =
      (if opts.similarityThreshold > 0 ∧ opts.baselineBody ≠ [] then
        (if buildShingles opts.baselineBody
            (if opts.shingleSize ≤ 0 then 5 else opts.shingleSize) ≠ ∅ then
          (⟨opts.statuses, decide (0 < opts.statuses.length), opts.size,
            opts.size.hasMin || opts.size.hasMax,
            buildShingles opts.baselineBody
              (if opts.shingleSize ≤ 0 then 5 else opts.shingleSize), true,
            (if opts.similarityThreshold > 1 then 1 else opts.similarityThreshold),
            (if opts.shingleSize ≤ 0 then 5 else opts.shingleSize)⟩ : Matcher.Matcher)
        else ⟨opts.statuses, decide (0 < opts.statuses.length), opts.size,
            opts.size.hasMin || opts.size.hasMax, ∅, false, 0,
            (if opts.shingleSize ≤ 0 then 5 else opts.shingleSize)⟩)
      else ⟨opts.statuses, decide (0 < opts.statuses.length), opts.size,
          opts.size.hasMin || opts.size.hasMax, ∅, false, 0,
          (if opts.shingleSize ≤ 0 then 5 else opts.shingleSize)⟩) := rfl

/-- Defining equation of `evaluate` with the local bindings expanded. -/
theorem evaluate_def (m : Matcher.Matcher) (res : Matcher.Result) :
    evaluate m res =
      (if res.hasErr then ⟨true, 0, false⟩
      else if m.hasStatus ∧ res.statusCode ∉ m.statuses then ⟨false, 0, false⟩
      else if m.hasSizeAny ∧ (res.contentLength < 0 ∨
          (m.size.hasMin ∧ res.contentLength < m.size.min) ∨
          (m.size.hasMax ∧ res.contentLength > m.size.max)) then ⟨false, 0, false⟩
      else if m.hasBaseline ∧ m.threshold > 0 then
        (if res.body = [] then ⟨true, 0, false⟩
        else if buildShingles res.body m.shingleSize = ∅ then ⟨true, 0, false⟩
        else ⟨decide (jaccardSimilarity m.baseline (buildShingles res.body m.shingleSize)
            < m.threshold),
          jaccardSimilarity m.baseline (buildShingles res.body m.shingleSize), true⟩)
      else ⟨true, 0, false⟩) := rfl

/-- A matcher without an active baseline never reports a similarity. -/
theorem evaluate_no_baseline (m : Matcher.Matcher) (res : Matcher.Result)
    (h : m.hasBaseline = false) :
    (evaluate m res).hasSimilarity = false := by
  rw [evaluate_def]
  split_ifs <;> simp_all

/-- C10: a matcher built with a non-positive similarity threshold, an empty
baseline body, or a baseline yielding no shingles has baseline filtering
inactive — it equals the matcher built without any baseline body and never
reports a similarity — and a threshold above 1 is clamped to 1 at
construction. -/
theorem c10_inactive_baseline_and_clamp :
    (∀ opts : Matcher.Options,
      (opts.similarityThreshold ≤ 0 ∨ opts.baselineBody = [] ∨
        buildShingles opts.baselineBody
          (if opts.shingleSize ≤ 0 then 5 else opts.shingleSize) = ∅) →
      (matcherNew opts).hasBaseline = false ∧
      matcherNew opts =
        matcherNew ⟨opts.statuses, opts.size, [], opts.similarityThreshold,
          opts.shingleSize⟩ ∧
      ∀ res : Matcher.Result, (evaluate (matcherNew opts) res).hasSimilarity = false) ∧
    (∀ opts : Matcher.Options, 1 < opts.similarityThreshold →
      matcherNew opts =
        matcherNew ⟨opts.statuses, opts.size, opts.baselineBody, 1, opts.shingleSize⟩) := by
  constructor
  · intro opts h
    have hinactive : matcherNew opts =
        ⟨opts.statuses, decide (0 < opts.statuses.length), opts.size,
          opts.size.hasMin || opts.size.hasMax, ∅, false, 0,
          (if opts.shingleSize ≤ 0 then 5 else opts.shingleSize)⟩ := by
      rw [matcherNew_def]
      rcases h with h | h | h
      · rw [if_neg]
        intro hc
        exact absurd hc.1 (not_lt.mpr h)
      · rw [if_neg]
        intro hc
        exact hc.2 h
      · by_cases hc : opts.similarityThreshold > 0 ∧ opts.baselineBody ≠ []
        · rw [if_pos hc, if_neg (by simp [h])]
        · rw [if_neg hc]
    have hrhs : matcherNew ⟨opts.statuses, opts.size, [], opts.similarityThreshold,
        opts.shingleSize⟩ =
        ⟨opts.statuses, decide (0 < opts.statuses.length), opts.size,
          opts.size.hasMin || opts.size.hasMax, ∅, false, 0,
          (if opts.shingleSize ≤ 0 then 5 else opts.shingleSize)⟩ := by
      rw [matcherNew_def]
      rw [if_neg]
      intro hc
      exact hc.2 rfl
    refine ⟨by rw [hinactive], by rw [hinactive, hrhs], fun res => ?_⟩
    exact evaluate_no_baseline _ _ (by rw [hinactive])
  · intro opts h
    have h0 : opts.similarityThreshold > 0 := lt_trans one_pos h
    rw [matcherNew_def, matcherNew_def]
    dsimp only
    by_cases hb : opts.baselineBody ≠ []
    · have hcL : opts.similarityThreshold > 0 ∧ opts.baselineBody ≠ [] := ⟨h0, hb⟩
      have hcR : (1 : ℚ) > 0 ∧ opts.baselineBody ≠ [] := ⟨one_pos, hb⟩
      rw [if_pos hcL, if_pos hcR, if_pos h, if_neg (lt_irrefl (1 : ℚ))]
    · push_neg at hb
      have hcL : ¬(opts.similarityThreshold > 0 ∧ opts.baselineBody ≠ []) :=
        fun hc => hc.2 hb
      have hcR : ¬((1 : ℚ) > 0 ∧ opts.baselineBody ≠ []) := fun hc => hc.2 hb
      rw [if_neg hcL, if_neg hcR]

/-- Witness for C10 at threshold 0 (inactive baseline) and threshold 2
(clamped to 1). -/
theorem c10_inactive_baseline_and_clamp_witness :
    (wOptsZero.similarityThreshold ≤ 0 ∨ wOptsZero.baselineBody = [] ∨
      buildShingles wOptsZero.baselineBody
        (if wOptsZero.shingleSize ≤ 0 then 5 else wOptsZero.shingleSize) = ∅) ∧
    ((matcherNew wOptsZero).hasBaseline = false ∧
      matcherNew wOptsZero = matcherNew ⟨wOptsZero.statuses, wOptsZero.size, [],
        wOptsZero.similarityThreshold, wOptsZero.shingleSize⟩ ∧
      ∀ res : Matcher.Result, (evaluate (matcherNew wOptsZero) res).hasSimilarity = false) ∧
    (1 < wOptsClamp.similarityThreshold ∧
      matcherNew wOptsClamp = matcherNew ⟨wOptsClamp.statuses, wOptsClamp.size,
        wOptsClamp.baselineBody, 1, wOptsClamp.shingleSize⟩) :=
  ⟨Or.inl (by decide),
    c10_inactive_baseline_and_clamp.1 wOptsZero (Or.inl (by decide)),
    by decide,
    c10_inactive_baseline_and_clamp.2 wOptsClamp (by decide)⟩

end MatcherTheoremsC10

section MatcherTheoremsC9

open Hydro Matcher Examples

/-- C9 counterexample: baseline filtering is active and the body is
non-empty, yet the status filter rejects the result first and no similarity
is reported — refuting the claim's "if and only if". -/
theorem c9_similarity_presence_counterexample :
    (matcherNew cxOpts9).hasBaseline = true ∧ (matcherNew cxOpts9).threshold > 0 ∧
    cxRes9.body ≠ [] ∧ cxRes9.hasErr = false ∧
    (evaluate (matcherNew cxOpts9) cxRes9).hasSimilarity = false := by
  decide

/-- C9 (amended): a similarity score is present in the outcome exactly when
the result is not an error, it passes the status and size filters, baseline
filtering is active, and the body is non-empty with a non-empty shingle
set. -/
theorem c9_similarity_presence_iff (m : Matcher.Matcher) (res : Matcher.Result) :
    (evaluate m res).hasSimilarity = true ↔
      (res.hasErr = false ∧
        ¬(m.hasStatus = true ∧ res.statusCode ∉ m.statuses) ∧
        ¬(m.hasSizeAny = true ∧ (res.contentLength < 0 ∨
          (m.size.hasMin = true ∧ res.contentLength < m.size.min) ∨
          (m.size.hasMax = true ∧ res.contentLength > m.size.max))) ∧
        m.hasBaseline = true ∧ 0 < m.threshold ∧ res.body ≠ [] ∧
        buildShingles res.body m.shingleSize ≠ ∅) := by
  rw [evaluate_def]
  split_ifs with h1 h2 h3 h4 h5 h6 <;> simp_all

end MatcherTheoremsC9

section MatcherTheoremsC5

open Hydro Matcher Examples

/-- `New` passes the status list through. -/
theorem matcherNew_statuses (o : Matcher.Options) :
    (matcherNew o).statuses = o.statuses := by
  rw [matcherNew_def]
  split_ifs <;> rfl

/-- `New` activates the status filter exactly for a non-empty list. -/
theorem matcherNew_hasStatus (o : Matcher.Options) :
    (matcherNew o).hasStatus = decide (0 < o.statuses.length) := by
  rw [matcherNew_def]
  split_ifs <;> rfl

/-- `New` passes the size range through. -/
theorem matcherNew_size (o : Matcher.Options) : (matcherNew o).size = o.size := by
  rw [matcherNew_def]
  split_ifs <;> rfl

/-- `New` activates the size filter exactly when a bound is present. -/
theorem matcherNew_hasSizeAny (o : Matcher.Options) :
    (matcherNew o).hasSizeAny = (o.size.hasMin || o.size.hasMax) := by
  rw [matcherNew_def]
  split_ifs <;> rfl

/-- `New` normalizes the shingle size. -/
theorem matcherNew_shingleSize (o : Matcher.Options) :
    (matcherNew o).shingleSize = (if o.shingleSize ≤ 0 then 5 else o.shingleSize) := by
  rw [matcherNew_def]
  split_ifs <;> rfl

/-- When the baseline-activation conditions hold, `New` stores the baseline
shingles and the clamped threshold. -/
theorem matcherNew_baseline_active (o : Matcher.Options)
    (h : 0 < o.similarityThreshold) (hb : o.baselineBody ≠ [])
    (hsh : buildShingles o.baselineBody
      (if o.shingleSize ≤ 0 then 5 else o.shingleSize) ≠ ∅) :
    (matcherNew o).hasBaseline = true ∧
    (matcherNew o).baseline = buildShingles o.baselineBody
      (if o.shingleSize ≤ 0 then 5 else o.shingleSize) ∧
    (matcherNew o).threshold =
      (if o.similarityThreshold > 1 then 1 else o.similarityThreshold) := by
  rw [matcherNew_def, if_pos ⟨h, hb⟩, if_pos hsh]
  exact ⟨rfl, rfl, rfl⟩

/-- `New` activates baseline filtering exactly under the three conditions. -/
theorem matcherNew_hasBaseline_iff (o : Matcher.Options) :
    (matcherNew o).hasBaseline = true ↔
      0 < o.similarityThreshold ∧ o.baselineBody ≠ [] ∧
      buildShingles o.baselineBody
        (if o.shingleSize ≤ 0 then 5 else o.shingleSize) ≠ ∅ := by
  by_cases hA : o.similarityThreshold > 0 ∧ o.baselineBody ≠ []
  · by_cases hB : buildShingles o.baselineBody
        (if o.shingleSize ≤ 0 then 5 else o.shingleSize) ≠ ∅
    · rw [matcherNew_def, if_pos hA, if_pos hB]
      exact iff_of_true rfl ⟨hA.1, hA.2, hB⟩
    · rw [matcherNew_def, if_pos hA, if_neg hB]
      exact iff_of_false (by simp) fun hc => hB hc.2.2
  · rw [matcherNew_def, if_neg hA]
    exact iff_of_false (by simp) fun hc => hA ⟨hc.1, hc.2.1⟩

/-- Characterization of `Matches` as the conjunction of the three filters. -/
theorem matcherMatches_true_iff (m : Matcher.Matcher) (res : Matcher.Result) :
    matcherMatches m res = true ↔
      (res.hasErr = true ∨
        ((m.hasStatus = true → res.statusCode ∈ m.statuses) ∧
        (m.hasSizeAny = true → 0 ≤ res.contentLength ∧
          (m.size.hasMin = true → m.size.min ≤ res.contentLength) ∧
          (m.size.hasMax = true → res.contentLength ≤ m.size.max)) ∧
        (m.hasBaseline = true → 0 < m.threshold → res.body ≠ [] →
          buildShingles res.body m.shingleSize ≠ ∅ →
          jaccardSimilarity m.baseline (buildShingles res.body m.shingleSize)
            < m.threshold))) := by
  unfold matcherMatches
  rw [evaluate_def]
  by_cases h1 : res.hasErr = true
  · rw [if_pos h1]
    exact iff_of_true rfl (Or.inl h1)
  · rw [if_neg h1]
    by_cases h2 : m.hasStatus = true ∧ res.statusCode ∉ m.statuses
    · rw [if_pos h2]
      refine iff_of_false (by simp) ?_
      intro hrhs
      rcases hrhs with he | ⟨hst, _, _⟩
      · exact h1 he
      · exact h2.2 (hst h2.1)
    · have hstatus : m.hasStatus = true → res.statusCode ∈ m.statuses := by
        intro hs
        by_contra hn
        exact h2 ⟨hs, hn⟩
      rw [if_neg h2]
      by_cases h3 : m.hasSizeAny = true ∧ (res.contentLength < 0 ∨
          (m.size.hasMin = true ∧ res.contentLength < m.size.min) ∨
          (m.size.hasMax = true ∧ res.contentLength > m.size.max))
      · rw [if_pos h3]
        refine iff_of_false (by simp) ?_
        intro hrhs
        rcases hrhs with he | ⟨_, hsz, _⟩
        · exact h1 he
        · rcases h3.2 with hv | ⟨hmin, hv⟩ | ⟨hmax, hv⟩
          · have h0 := (hsz h3.1).1
            omega
          · have h0 := (hsz h3.1).2.1 hmin
            omega
          · have h0 := (hsz h3.1).2.2 hmax
            omega
      · have hsize : m.hasSizeAny = true → 0 ≤ res.contentLength ∧
            (m.size.hasMin = true → m.size.min ≤ res.contentLength) ∧
            (m.size.hasMax = true → res.contentLength ≤ m.size.max) := by
          intro hsz
          refine ⟨?_, ?_, ?_⟩
          · by_contra hn
            exact h3 ⟨hsz, Or.inl (by omega)⟩
          · intro hmin
            by_contra hn
            exact h3 ⟨hsz, Or.inr (Or.inl ⟨hmin, by omega⟩)⟩
          · intro hmax
            by_contra hn
            exact h3 ⟨hsz, Or.inr (Or.inr ⟨hmax, by omega⟩)⟩
        rw [if_neg h3]
        by_cases h4 : m.hasBaseline = true ∧ m.threshold > 0
        · rw [if_pos h4]
          by_cases h5 : res.body = []
          · rw [if_pos h5]
            refine iff_of_true rfl (Or.inr ⟨hstatus, hsize, ?_⟩)
            intro _ _ hbody _
            exact absurd h5 hbody
          · rw [if_neg h5]
            by_cases h6 : buildShingles res.body m.shingleSize = ∅
            · rw [if_pos h6]
              refine iff_of_true rfl (Or.inr ⟨hstatus, hsize, ?_⟩)
              intro _ _ _ hsh
              exact absurd h6 hsh
            · rw [if_neg h6]
              constructor
              · intro hd
                refine Or.inr ⟨hstatus, hsize, ?_⟩
                intro _ _ _ _
                exact of_decide_eq_true hd
              · intro hrhs
                rcases hrhs with he | ⟨_, _, hbl⟩
                · exact absurd he h1
                · exact decide_eq_true (hbl h4.1 h4.2 h5 h6)
        · rw [if_neg h4]
          refine iff_of_true rfl (Or.inr ⟨hstatus, hsize, ?_⟩)
          intro hb hthr _ _
          exact absurd ⟨hb, hthr⟩ h4

end MatcherTheoremsC5

section MatcherTheoremsC5Main

open Hydro Matcher Examples

/-- C5 (amended): tightening any rule while keeping every touched rule
active — adding a status allow-list or shrinking it to a non-empty subset,
adding or narrowing a size bound, lowering the similarity threshold while
keeping it positive — cannot turn a non-match into a match: every result
matched by the tightened matcher is matched by the original. -/
theorem c5_matches_monotone_amended (o' o : Matcher.Options)
    (h : Matcher.tightens o' o) (res : Matcher.Result)
    (hm : matcherMatches (matcherNew o') res = true) :
    matcherMatches (matcherNew o) res = true := by
  obtain ⟨hstt, hmint, hmaxt, hthrt, hbodyt, hshszt⟩ := h
  rw [matcherMatches_true_iff] at hm ⊢
  rcases hm with he | ⟨hst', hsz', hbl'⟩
  · exact Or.inl he
  · refine Or.inr ⟨?_, ?_, ?_⟩
    · intro hs
      rw [matcherNew_hasStatus] at hs
      have hlen : o.statuses ≠ [] := by
        intro hnil
        rw [hnil] at hs
        simp at hs
      obtain ⟨hne', hsub⟩ := hstt hlen
      have hs' : (matcherNew o').hasStatus = true := by
        rw [matcherNew_hasStatus]
        simp only [decide_eq_true_eq, List.length_pos]
        exact hne'
      have hin' := hst' hs'
      rw [matcherNew_statuses] at hin' ⊢
      exact hsub _ hin'
    · intro hsz
      rw [matcherNew_hasSizeAny] at hsz
      have hor := hsz
      simp only [Bool.or_eq_true] at hor
      have hsz'on : (matcherNew o').hasSizeAny = true := by
        rw [matcherNew_hasSizeAny]
        rcases hor with h1 | h1
        · simp [(hmint h1).1]
        · simp [(hmaxt h1).1]
      have hres := hsz' hsz'on
      rw [matcherNew_size] at hres ⊢
      refine ⟨hres.1, ?_, ?_⟩
      · intro h1
        obtain ⟨h1', hle⟩ := hmint h1
        have h2 := hres.2.1 h1'
        omega
      · intro h1
        obtain ⟨h1', hle⟩ := hmaxt h1
        have h2 := hres.2.2 h1'
        omega
    · intro hb hthr0 hbody0 hsh0
      obtain ⟨hop, hob, hosh⟩ := (matcherNew_hasBaseline_iff o).mp hb
      obtain ⟨hop', hle'⟩ := hthrt hop
      have hob' : o'.baselineBody ≠ [] := by
        rw [hbodyt]
        exact hob
      have hosh' : buildShingles o'.baselineBody
          (if o'.shingleSize ≤ 0 then 5 else o'.shingleSize) ≠ ∅ := by
        rw [hbodyt, hshszt]
        exact hosh
      have hb' := (matcherNew_hasBaseline_iff o').mpr ⟨hop', hob', hosh'⟩
      obtain ⟨_, hbase, hthrv⟩ := matcherNew_baseline_active o hop hob hosh
      obtain ⟨_, hbase', hthrv'⟩ := matcherNew_baseline_active o' hop' hob' hosh'
      have hthr0' : 0 < (matcherNew o').threshold := by
        rw [hthrv']
        split_ifs with hgt
        · exact one_pos
        · exact hop'
      have hszeq : (matcherNew o').shingleSize = (matcherNew o).shingleSize := by
        rw [matcherNew_shingleSize, matcherNew_shingleSize, hshszt]
      have hsim := hbl' hb' hthr0' hbody0 (by rw [hszeq]; exact hsh0)
      have hbeq : (matcherNew o').baseline = (matcherNew o).baseline := by
        rw [hbase, hbase', hbodyt, hshszt]
      have hthrle : (matcherNew o').threshold ≤ (matcherNew o).threshold := by
        rw [hthrv, hthrv']
        split_ifs with hg1 hg2 <;> linarith
      calc jaccardSimilarity (matcherNew o).baseline
            (buildShingles res.body (matcherNew o).shingleSize)
          = jaccardSimilarity (matcherNew o').baseline
            (buildShingles res.body (matcherNew o').shingleSize) := by
            rw [hbeq, hszeq]
        _ < (matcherNew o').threshold := hsim
        _ ≤ (matcherNew o).threshold := hthrle

/-- C5 counterexample: lowering the similarity threshold from 1 to 0 — all
other rules unchanged — deactivates baseline filtering in `New` and turns a
similarity-rejected result into a match, so the claim's monotonicity under
"lowering the similarity threshold" fails as stated. -/
theorem c5_matches_monotone_counterexample :
    cxOptsLow.statuses = cxOptsHigh.statuses ∧
    cxOptsLow.size = cxOptsHigh.size ∧
    cxOptsLow.baselineBody = cxOptsHigh.baselineBody ∧
    cxOptsLow.shingleSize = cxOptsHigh.shingleSize ∧
    cxOptsLow.similarityThreshold ≤ cxOptsHigh.similarityThreshold ∧
    matcherMatches (matcherNew cxOptsHigh) cxRes = false ∧
    matcherMatches (matcherNew cxOptsLow) cxRes = true := by
  have hsh : buildShingles exBaseline 5 ≠ ∅ := by decide
  refine ⟨rfl, rfl, rfl, rfl, by decide, ?_, ?_⟩
  · have hact := matcherNew_baseline_active cxOptsHigh (by decide) (by decide) (by decide)
    have hsz5 : (matcherNew cxOptsHigh).shingleSize = 5 := by
      rw [matcherNew_shingleSize]
      decide
    have hb5 : (matcherNew cxOptsHigh).baseline = buildShingles exBaseline 5 := by
      rw [hact.2.1]
      decide
    have hthr1 : (matcherNew cxOptsHigh).threshold = 1 := by
      rw [hact.2.2]
      decide
    have hsim1 : jaccardSimilarity (buildShingles exBaseline 5)
        (buildShingles exBaseline 5) = 1 :=
      (jaccard_eq_one_iff _ _).mpr ⟨rfl, hsh⟩
    rw [Bool.eq_false_iff]
    intro hmt
    rw [matcherMatches_true_iff] at hmt
    rcases hmt with he | ⟨_, _, hbl⟩
    · exact absurd he (by decide)
    · have hlt := hbl hact.1 (by rw [hthr1]; norm_num) (by decide)
        (by rw [hsz5]; exact hsh)
      rw [hb5, hsz5, hthr1] at hlt
      have hbody : cxRes.body = exBaseline := rfl
      rw [hbody, hsim1] at hlt
      exact absurd hlt (lt_irrefl 1)
  · rw [matcherMatches_true_iff]
    refine Or.inr ⟨?_, ?_, ?_⟩
    · intro hs
      rw [matcherNew_hasStatus] at hs
      exact absurd hs (by decide)
    · intro hsz
      rw [matcherNew_hasSizeAny] at hsz
      exact absurd hsz (by decide)
    · intro hb _ _ _
      obtain ⟨h0, _, _⟩ := (matcherNew_hasBaseline_iff cxOptsLow).mp hb
      exact absurd h0 (by decide)

/-- Witness for the amended C5: shrinking the allow-list `[200, 404]` to
`[200]` is a tightening, and a 200 result matched by the tightened matcher
is matched by the original. -/
theorem c5_matches_monotone_amended_witness :
    Matcher.tightens wOptsTight wOptsLoose ∧
    matcherMatches (matcherNew wOptsTight) wRes = true ∧
    matcherMatches (matcherNew wOptsLoose) wRes = true :=
  ⟨by decide, by decide,
    c5_matches_monotone_amended wOptsTight wOptsLoose (by decide) wRes (by decide)⟩

end MatcherTheoremsC5Main

section TemplaterTheoremsC7

open Hydro Templater Examples

/-- The fuel of `replaceAllAux` is irrelevant once it covers the string's
length. -/
theorem replaceAllAux_fuel (pat rep : Str) :
    ∀ (f g : Nat) (s : Str), s.length ≤ f → s.length ≤ g →
      replaceAllAux pat rep f s = replaceAllAux pat rep g s := by
  intro f
  induction f with
  | zero =>
    intro g s hf hg
    have hs : s = [] := List.eq_nil_of_length_eq_zero (Nat.le_zero.mp hf)
    subst hs
    cases g <;> rfl
  | succ f ih =>
    intro g s hf hg
    cases s with
    | nil => cases g <;> rfl
    | cons c rest =>
      cases g with
      | zero => simp at hg
      | succ g' =>
        simp only [replaceAllAux]
        by_cases hc : pat ≠ [] ∧ pat.isPrefixOf (c :: rest) = true
        · rw [if_pos hc, if_pos hc]
          have hp1 : 1 ≤ pat.length := by
            cases pat
            · exact absurd rfl hc.1
            · simp
          have hd : ((c :: rest).drop pat.length).length ≤ f := by
            rw [List.length_drop]
            simp only [List.length_cons] at hf ⊢
            omega
          have hd' : ((c :: rest).drop pat.length).length ≤ g' := by
            rw [List.length_drop]
            simp only [List.length_cons] at hg ⊢
            omega
          rw [ih g' _ hd hd']
        · rw [if_neg hc, if_neg hc]
          have h1 : rest.length ≤ f := by
            simp only [List.length_cons] at hf
            omega
          have h2 : rest.length ≤ g' := by
            simp only [List.length_cons] at hg
            omega
          rw [ih g' rest h1 h2]

/-- The scan steps over a character at which the pattern does not match. -/
theorem replaceAll_cons_no_match (pat rep : Str) (c : Char) (s : Str)
    (h : pat.isPrefixOf (c :: s) = false) :
    replaceAll pat rep (c :: s) = c :: replaceAll pat rep s := by
  simp only [replaceAll, List.length_cons, replaceAllAux]
  rw [if_neg]
  intro hc
  rw [h] at hc
  exact Bool.false_ne_true hc.2

/-- The scan replaces the pattern at the head of the string. -/
theorem replaceAll_append_pat (pat rep t : Str) (h : pat ≠ []) :
    replaceAll pat rep (pat ++ t) = rep ++ replaceAll pat rep t := by
  cases pat with
  | nil => exact absurd rfl h
  | cons c p' =>
    have hpre : (c :: p').isPrefixOf (c :: (p' ++ t)) = true := by
      apply List.isPrefixOf_iff_prefix.mpr
      exact ⟨t, by simp⟩
    show replaceAllAux (c :: p') rep ((c :: (p' ++ t)).length) (c :: (p' ++ t)) =
      rep ++ replaceAll (c :: p') rep t
    simp only [List.length_cons, replaceAllAux]
    rw [if_pos ⟨h, hpre⟩]
    have hdrop : (c :: (p' ++ t)).drop (p'.length + 1) = t := by
      simp only [List.drop_succ_cons]
      exact List.drop_left p' t
    rw [hdrop]
    congr 1
    show replaceAllAux (c :: p') rep ((p' ++ t).length) t =
      replaceAllAux (c :: p') rep t.length t
    apply replaceAllAux_fuel
    · simp
    · exact le_refl _

/-- The scan passes over a prefix inside which the pattern never matches. -/
theorem replaceAll_append_left (pat rep : Str) :
    ∀ (a t : Str), (∀ i, i < a.length → pat.isPrefixOf ((a ++ t).drop i) = false) →
      replaceAll pat rep (a ++ t) = a ++ replaceAll pat rep t := by
  intro a
  induction a with
  | nil =>
    intro t h
    rfl
  | cons c a' ih =>
    intro t h
    have h0 : pat.isPrefixOf (c :: (a' ++ t)) = false := by
      have hx := h 0 (by simp)
      simpa using hx
    have hrest : ∀ i, i < a'.length → pat.isPrefixOf ((a' ++ t).drop i) = false := by
      intro i hi
      have hx := h (i + 1) (by simp only [List.length_cons]; omega)
      simpa using hx
    rw [List.cons_append, replaceAll_cons_no_match pat rep c (a' ++ t) h0, ih t hrest,
      List.cons_append]

/-- A string without any occurrence of the pattern is left unchanged. -/
theorem replaceAll_of_not_contains (pat rep : Str) :
    ∀ s : Str, containsSub s pat = false → replaceAll pat rep s = s := by
  intro s
  induction s with
  | nil => intro h; rfl
  | cons c rest ih =>
    intro h
    simp only [containsSub, Bool.or_eq_false_iff] at h
    rw [replaceAll_cons_no_match pat rep c rest h.1, ih h.2]

/-- A pattern matching at some offset makes the substring test succeed. -/
theorem containsSub_of_prefix_drop (s pat : Str) :
    ∀ i : Nat, pat.isPrefixOf (s.drop i) = true → containsSub s pat = true := by
  induction s with
  | nil =>
    intro i h
    rw [List.drop_nil] at h
    simp [containsSub, h]
  | cons c rest ih =>
    intro i h
    cases i with
    | zero =>
      rw [List.drop_zero] at h
      simp [containsSub, h]
    | succ i' =>
      rw [List.drop_succ_cons] at h
      have hx := ih i' h
      simp [containsSub, hx]

/-- A successful substring test yields an offset at which the pattern
matches. -/
theorem prefix_drop_of_containsSub (s pat : Str) :
    containsSub s pat = true → ∃ i, pat.isPrefixOf (s.drop i) = true := by
  induction s with
  | nil =>
    intro h
    exact ⟨0, by simpa [containsSub] using h⟩
  | cons c rest ih =>
    intro h
    simp only [containsSub, Bool.or_eq_true] at h
    rcases h with h | h
    · exact ⟨0, by simpa using h⟩
    · obtain ⟨i, hi⟩ := ih h
      exact ⟨i + 1, by simpa using hi⟩

/-- A prefix of a concatenation either sits inside the first part or spans
the boundary. -/
theorem isPrefixOf_append_split (u : Str) :
    ∀ (pat v : Str), pat.isPrefixOf (u ++ v) = true →
      pat.isPrefixOf u = true ∨
        (u.isPrefixOf pat = true ∧ (pat.drop u.length).isPrefixOf v = true) := by
  induction u with
  | nil =>
    intro pat v h
    right
    refine ⟨by cases pat <;> rfl, ?_⟩
    simpa using h
  | cons c u' ih =>
    intro pat v h
    cases pat with
    | nil => left; rfl
    | cons d p' =>
      rw [List.cons_append] at h
      simp only [List.isPrefixOf, Bool.and_eq_true, beq_iff_eq] at h
      obtain ⟨hdc, hrec⟩ := h
      subst hdc
      rcases ih p' v hrec with hl | ⟨h1, h2⟩
      · left
        simp [List.isPrefixOf, hl]
      · right
        refine ⟨by simp [List.isPrefixOf, h1], ?_⟩
        simpa using h2

/-- A Boolean prefix is no longer than the string. -/
theorem isPrefixOf_length_le (u v : Str) (h : u.isPrefixOf v = true) :
    u.length ≤ v.length :=
  (List.isPrefixOf_iff_prefix.mp h).length_le

/-- A Boolean prefix of equal length is the string itself. -/
theorem eq_of_isPrefixOf_length (u v : Str) (h : u.isPrefixOf v = true)
    (hl : u.length = v.length) : u = v :=
  (List.isPrefixOf_iff_prefix.mp h).eq_of_length hl

/-- When neither of two strings is a prefix of the other, the first does not
match at the start of the second followed by anything. -/
theorem isPrefixOf_append_false (pat u v : Str) (h1 : pat.isPrefixOf u = false)
    (h2 : u.isPrefixOf pat = false) : pat.isPrefixOf (u ++ v) = false := by
  by_contra habs
  rw [Bool.not_eq_false] at habs
  rcases isPrefixOf_append_split u pat v habs with hc | ⟨hc, _⟩
  · rw [h1] at hc
    exact Bool.false_ne_true hc
  · rw [h2] at hc
    exact Bool.false_ne_true hc

/-- A string containing the doubled placeholder contains the placeholder. -/
theorem containsSub_double_imp (s : Str) (h : containsSub s doubleFUZZ = true) :
    containsSub s placeholderFUZZ = true := by
  obtain ⟨i, hi⟩ := prefix_drop_of_containsSub s doubleFUZZ h
  obtain ⟨r, hr⟩ := List.isPrefixOf_iff_prefix.mp hi
  apply containsSub_of_prefix_drop s placeholderFUZZ (i + 2)
  have hdd : s.drop (i + 2) = (s.drop i).drop 2 := by
    rw [List.drop_drop]
  rw [hdd, ← hr, List.drop_append_of_le_length (by decide)]
  have hd2 : doubleFUZZ.drop 2 = placeholderFUZZ ++ [rbrace, rbrace] := by decide
  rw [hd2, List.append_assoc]
  apply List.isPrefixOf_iff_prefix.mpr
  exact List.prefix_append _ _

/-- The fallback path: a template without any recognized placeholder has the
payload appended with a single slash unless it already ends in one. -/
theorem expand_fallback (template payload : Str)
    (hf : containsSub template placeholderFUZZ = false)
    (hpct : containsSub template percentS = false) :
    expand template payload =
      (if endsWithSlash template = true then template ++ payload
        else template ++ '/' :: payload) := by
  have hd : containsSub template doubleFUZZ = false := by
    by_contra habs
    rw [Bool.not_eq_false] at habs
    rw [containsSub_double_imp template habs] at hf
    exact Bool.false_ne_true hf.symm
  simp [expand, hd, hf, hpct]

end TemplaterTheoremsC7

section TemplaterTheoremsC7Pieces

open Hydro Templater Examples

/-- Concatenation respects pointwise-equal piece renderings. -/
theorem concatPieces_congr (f g : Piece → Str) :
    ∀ ps : List Piece, (∀ p ∈ ps, f p = g p) →
      concatPieces f ps = concatPieces g ps := by
  intro ps
  induction ps with
  | nil => intro h; rfl
  | cons p ps ih =>
    intro h
    show f p ++ concatPieces f ps = g p ++ concatPieces g ps
    rw [h p (by simp), ih fun q hq => h q (by simp [hq])]

/-- Every character of a concatenation comes from some piece. -/
theorem mem_concatPieces (f : Piece → Str) :
    ∀ (ps : List Piece) (c : Char), c ∈ concatPieces f ps → ∃ p ∈ ps, c ∈ f p := by
  intro ps
  induction ps with
  | nil =>
    intro c hc
    exact absurd hc (List.not_mem_nil c)
  | cons p ps ih =>
    intro c hc
    simp only [concatPieces] at hc
    rcases List.mem_append.mp hc with h | h
    · exact ⟨p, by simp, h⟩
    · obtain ⟨q, hq, hcq⟩ := ih c h
      exact ⟨q, by simp [hq], hcq⟩

/-- A piece of the list exhibits its text inside the concatenation. -/
theorem concatPieces_split (f : Piece → Str) :
    ∀ (ps : List Piece) (p : Piece), p ∈ ps →
      ∃ a b, concatPieces f ps = a ++ (f p ++ b) := by
  intro ps
  induction ps with
  | nil =>
    intro p hp
    exact absurd hp (List.not_mem_nil p)
  | cons q ps ih =>
    intro p hp
    rcases List.mem_cons.mp hp with h | h
    · subst h
      exact ⟨[], concatPieces f ps, by simp [concatPieces]⟩
    · obtain ⟨a, b, hab⟩ := ih p h
      exact ⟨f q ++ a, b, by simp [concatPieces, hab]⟩

/-- A string none of whose characters equals the pattern's head character
never contains the pattern. -/
theorem containsSub_no_head (hd : Char) (pt : Str) :
    ∀ s : Str, (∀ c ∈ s, c ≠ hd) → containsSub s (hd :: pt) = false := by
  intro s
  induction s with
  | nil => intro h; rfl
  | cons c rest ih =>
    intro h
    have hne : (hd == c) = false :=
      beq_eq_false_iff_ne.mpr fun he => h c (by simp) he.symm
    have h1 : (hd :: pt).isPrefixOf (c :: rest) = false := by
      simp [List.isPrefixOf, hne]
    simp only [containsSub, h1, Bool.false_or]
    exact ih fun d hdm => h d (by simp [hdm])

/-- The pattern occurs in a concatenation whenever some piece renders as the
pattern itself. -/
theorem containsSub_concat_pos (f : Piece → Str) (ps : List Piece) (p : Piece)
    (hp : p ∈ ps) (pat : Str) (hf : f p = pat) :
    containsSub (concatPieces f ps) pat = true := by
  obtain ⟨a, b, hab⟩ := concatPieces_split f ps p hp
  rw [hf] at hab
  apply containsSub_of_prefix_drop _ pat a.length
  rw [hab, List.drop_left]
  exact List.isPrefixOf_iff_prefix.mpr (List.prefix_append pat b)

/-- The pattern is absent from a concatenation none of whose pieces contains
the pattern's head character. -/
theorem containsSub_concat_neg (hd : Char) (pt : Str) (f : Piece → Str)
    (ps : List Piece) (h : ∀ p ∈ ps, hd ∉ f p) :
    containsSub (concatPieces f ps) (hd :: pt) = false := by
  apply containsSub_no_head
  intro c hc he
  obtain ⟨p, hp, hcp⟩ := mem_concatPieces f ps c hc
  exact h p hp (he ▸ hcp)

/-- `ReplaceAll` over a concatenation of pieces: every piece rendering as the
pattern becomes the replacement, and every piece free of the pattern's head
character passes through unchanged. -/
theorem replaceAll_concatPieces (hd : Char) (pt rep : Str) (f g : Piece → Str) :
    ∀ ps : List Piece,
      (∀ p ∈ ps, (f p = hd :: pt ∧ g p = rep) ∨ (f p = g p ∧ hd ∉ f p)) →
      replaceAll (hd :: pt) rep (concatPieces f ps) = concatPieces g ps := by
  intro ps
  induction ps with
  | nil => intro h; rfl
  | cons p ps ih =>
    intro h
    show replaceAll (hd :: pt) rep (f p ++ concatPieces f ps) = g p ++ concatPieces g ps
    rcases h p (by simp) with ⟨hf, hg⟩ | ⟨hfg, hno⟩
    · rw [hf, hg, replaceAll_append_pat _ _ _ (by simp),
        ih fun q hq => h q (by simp [hq])]
    · have hnm : ∀ i, i < (f p).length →
          (hd :: pt).isPrefixOf ((f p ++ concatPieces f ps).drop i) = false := by
        intro i hi
        rw [List.drop_append_of_le_length (le_of_lt hi)]
        cases hdrop : (f p).drop i with
        | nil =>
          exfalso
          have hlen := List.length_drop i (f p)
          rw [hdrop] at hlen
          simp only [List.length_nil] at hlen
          omega
        | cons c rest =>
          have hcmem : c ∈ f p :=
            List.mem_of_mem_drop (by rw [hdrop]; exact List.mem_cons_self c rest)
          have hne : (hd == c) = false :=
            beq_eq_false_iff_ne.mpr fun he => hno (he ▸ hcmem)
          simp [List.isPrefixOf, hne]
      rw [replaceAll_append_left (hd :: pt) rep (f p) (concatPieces f ps) hnm,
        ih fun q hq => h q (by simp [hq]), hfg]

/-- A clean literal avoids the brace, `F` and `%` characters. -/
theorem cleanLit_spec (s : Str) (h : cleanLit s = true) :
    lbrace ∉ s ∧ 'F' ∉ s ∧ '%' ∉ s := by
  simp only [cleanLit, List.all_eq_true] at h
  exact ⟨fun hm => absurd (h lbrace hm) (by decide),
    fun hm => absurd (h 'F' hm) (by decide),
    fun hm => absurd (h '%' hm) (by decide)⟩

/-- A clean payload avoids the `F` and `%` characters. -/
theorem cleanPayload_spec (s : Str) (h : cleanPayload s = true) :
    'F' ∉ s ∧ '%' ∉ s := by
  simp only [cleanPayload, List.all_eq_true] at h
  exact ⟨fun hm => absurd (h 'F' hm) (by decide),
    fun hm => absurd (h '%' hm) (by decide)⟩

/-- Every literal member of a clean decomposition is clean. -/
theorem cleanPieces_mem :
    ∀ ps : List Piece, cleanPieces ps = true →
      ∀ s : Str, Piece.lit s ∈ ps → cleanLit s = true := by
  intro ps
  induction ps with
  | nil =>
    intro h s hs
    exact absurd hs (List.not_mem_nil _)
  | cons p ps ih =>
    intro h s hs
    cases p with
    | lit t =>
      have h2 : cleanLit t = true ∧ cleanPieces ps = true := by
        simpa [cleanPieces, Bool.and_eq_true] using h
      rcases List.mem_cons.mp hs with he | he
      · cases he
        exact h2.1
      · exact ih h2.2 s he
    | double =>
      rcases List.mem_cons.mp hs with he | he
      · cases he
      · exact ih (by simpa [cleanPieces] using h) s he
    | plain =>
      rcases List.mem_cons.mp hs with he | he
      · cases he
      · exact ih (by simpa [cleanPieces] using h) s he
    | format =>
      rcases List.mem_cons.mp hs with he | he
      · cases he
      · exact ih (by simpa [cleanPieces] using h) s he

/-- The doubled token written with its head character exposed. -/
theorem doubleFUZZ_cons :
    doubleFUZZ = lbrace :: (lbrace :: (placeholderFUZZ ++ [rbrace, rbrace])) := by
  decide

/-- The bare token written with its head character exposed. -/
theorem placeholderFUZZ_cons : placeholderFUZZ = 'F' :: ['U', 'Z', 'Z'] := by
  decide

/-- The format token written with its head character exposed. -/
theorem percentS_cons : percentS = '%' :: ['s'] := by
  decide

/-- The doubled token occurs in the assembled template when a doubled piece
is present. -/
theorem hasDouble_pos (ps : List Piece) (hp : Piece.double ∈ ps) :
    containsSub (concatPieces Piece.text ps) doubleFUZZ = true :=
  containsSub_concat_pos Piece.text ps Piece.double hp doubleFUZZ rfl

/-- The doubled token is absent from a clean template without doubled
pieces. -/
theorem hasDouble_neg (ps : List Piece) (hc : cleanPieces ps = true)
    (hnd : Piece.double ∉ ps) :
    containsSub (concatPieces Piece.text ps) doubleFUZZ = false := by
  rw [doubleFUZZ_cons]
  apply containsSub_concat_neg
  intro p hp
  cases p with
  | lit s => exact (cleanLit_spec s (cleanPieces_mem ps hc s hp)).1
  | double => exact absurd hp hnd
  | plain => decide
  | format => decide

/-- The bare token occurs after the doubled pass when a bare piece is
present. -/
theorem hasPlain_pos (rep : Str) (ps : List Piece) (hp : Piece.plain ∈ ps) :
    containsSub (concatPieces (Piece.afterDouble rep) ps) placeholderFUZZ = true :=
  containsSub_concat_pos (Piece.afterDouble rep) ps Piece.plain hp placeholderFUZZ rfl

/-- The bare token is absent after the doubled pass removed the doubled
tokens from a clean template without bare pieces. -/
theorem hasPlain_neg (ps : List Piece) (hc : cleanPieces ps = true)
    (hnp : Piece.plain ∉ ps) :
    containsSub (concatPieces (Piece.afterDouble []) ps) placeholderFUZZ = false := by
  rw [placeholderFUZZ_cons]
  apply containsSub_concat_neg
  intro p hp
  cases p with
  | lit s => exact (cleanLit_spec s (cleanPieces_mem ps hc s hp)).2.1
  | double => decide
  | plain => exact absurd hp hnp
  | format => decide

/-- The format token occurs in the assembled template when a format piece is
present. -/
theorem hasFormat_pos (ps : List Piece) (hp : Piece.format ∈ ps) :
    containsSub (concatPieces Piece.text ps) percentS = true :=
  containsSub_concat_pos Piece.text ps Piece.format hp percentS rfl

/-- The format token is absent from a clean template without format
pieces. -/
theorem hasFormat_neg (ps : List Piece) (hc : cleanPieces ps = true)
    (hnf : Piece.format ∉ ps) :
    containsSub (concatPieces Piece.text ps) percentS = false := by
  rw [percentS_cons]
  apply containsSub_concat_neg
  intro p hp
  cases p with
  | lit s => exact (cleanLit_spec s (cleanPieces_mem ps hc s hp)).2.2
  | double => decide
  | plain => decide
  | format => exact absurd hp hnf

/-- Without doubled pieces, the doubled pass is the identity on the
decomposition. -/
theorem concat_text_afterDouble (rep : Str) (ps : List Piece)
    (hnd : Piece.double ∉ ps) :
    concatPieces Piece.text ps = concatPieces (Piece.afterDouble rep) ps := by
  apply concatPieces_congr
  intro p hp
  cases p with
  | lit s => rfl
  | double => exact absurd hp hnd
  | plain => rfl
  | format => rfl

/-- Without bare pieces, the bare pass is the identity on the
decomposition. -/
theorem concat_afterDouble_afterPlain (payload : Str) (ps : List Piece)
    (hnp : Piece.plain ∉ ps) :
    concatPieces (Piece.afterDouble payload) ps =
      concatPieces (Piece.afterPlain payload) ps := by
  apply concatPieces_congr
  intro p hp
  cases p with
  | lit s => rfl
  | double => rfl
  | plain => exact absurd hp hnp
  | format => rfl

/-- Without format pieces, the format pass is the identity on the
decomposition. -/
theorem concat_afterPlain_subst (payload : Str) (ps : List Piece)
    (hnf : Piece.format ∉ ps) :
    concatPieces (Piece.afterPlain payload) ps =
      concatPieces (Piece.subst payload) ps := by
  apply concatPieces_congr
  intro p hp
  cases p with
  | lit s => rfl
  | double => rfl
  | plain => rfl
  | format => exact absurd hp hnf

/-- The doubled-placeholder pass over an assembled clean template replaces
exactly the doubled tokens by `rep`. -/
theorem scan_double (rep : Str) (ps : List Piece) (hc : cleanPieces ps = true) :
    replaceAll doubleFUZZ rep (concatPieces Piece.text ps) =
      concatPieces (Piece.afterDouble rep) ps := by
  rw [doubleFUZZ_cons]
  apply replaceAll_concatPieces
  intro p hp
  cases p with
  | lit s => exact Or.inr ⟨rfl, (cleanLit_spec s (cleanPieces_mem ps hc s hp)).1⟩
  | double => exact Or.inl ⟨by decide, rfl⟩
  | plain => exact Or.inr ⟨rfl, by decide⟩
  | format => exact Or.inr ⟨rfl, by decide⟩

/-- The bare-placeholder pass over the doubled pass's output replaces
exactly the bare tokens by the payload. -/
theorem scan_plain (payload : Str) (ps : List Piece) (hc : cleanPieces ps = true)
    (hpay : cleanPayload payload = true) :
    replaceAll placeholderFUZZ payload (concatPieces (Piece.afterDouble payload) ps) =
      concatPieces (Piece.afterPlain payload) ps := by
  rw [placeholderFUZZ_cons]
  apply replaceAll_concatPieces
  intro p hp
  cases p with
  | lit s => exact Or.inr ⟨rfl, (cleanLit_spec s (cleanPieces_mem ps hc s hp)).2.1⟩
  | double => exact Or.inr ⟨rfl, (cleanPayload_spec payload hpay).1⟩
  | plain => exact Or.inl ⟨placeholderFUZZ_cons, rfl⟩
  | format => exact Or.inr ⟨rfl, (by decide : 'F' ∉ percentS)⟩

/-- The format pass over the previous passes' output replaces exactly the
format tokens by the payload. -/
theorem scan_format (payload : Str) (ps : List Piece) (hc : cleanPieces ps = true)
    (hpay : cleanPayload payload = true) :
    replaceAll percentS payload (concatPieces (Piece.afterPlain payload) ps) =
      concatPieces (Piece.subst payload) ps := by
  rw [percentS_cons]
  apply replaceAll_concatPieces
  intro p hp
  cases p with
  | lit s => exact Or.inr ⟨rfl, (cleanLit_spec s (cleanPieces_mem ps hc s hp)).2.2⟩
  | double => exact Or.inr ⟨rfl, (cleanPayload_spec payload hpay).2⟩
  | plain => exact Or.inr ⟨rfl, (cleanPayload_spec payload hpay).2⟩
  | format => exact Or.inl ⟨percentS_cons, rfl⟩

end TemplaterTheoremsC7Pieces

section TemplaterTheoremsC7Main

open Hydro Templater Examples

/-- C7: `Expand` substitutes all occurrences of every recognized placeholder
and otherwise appends the payload. First half: for every template free of
placeholders, the payload is appended with a single slash unless the
template already ends in one. Second half: for every template assembled
from arbitrarily many literal runs and placeholder tokens of all three
kinds (doubled, bare `FUZZ`, `%s`), in any number and order, and every
payload, `Expand` replaces every placeholder token by the payload and keeps
every literal run — provided the literal runs and the payload avoid the
three characters that can begin a placeholder token, which keeps the
decomposition unambiguous. -/
theorem c7_expand_substitution :
    (∀ template payload : Str,
      containsSub template placeholderFUZZ = false →
      containsSub template percentS = false →
      expand template payload =
        (if endsWithSlash template = true then template ++ payload
          else template ++ '/' :: payload)) ∧
    (∀ (ps : List Piece) (payload : Str),
      cleanPieces ps = true → cleanPayload payload = true →
      ps.any Piece.isToken = true →
      expand (assemble ps) payload = substPieces payload ps) := by
  constructor
  · exact expand_fallback
  · intro ps payload hc hpay htok
    have hAs : assemble ps = concatPieces Piece.text ps := rfl
    have hSu : substPieces payload ps = concatPieces (Piece.subst payload) ps := rfl
    rw [hAs, hSu]
    by_cases hD : Piece.double ∈ ps
    · have hDval := hasDouble_pos ps hD
      by_cases hP : Piece.plain ∈ ps
      · have hPval : containsSub
            (replaceAll doubleFUZZ [] (concatPieces Piece.text ps))
            placeholderFUZZ = true := by
          rw [scan_double [] ps hc]
          exact hasPlain_pos [] ps hP
        by_cases hF : Piece.format ∈ ps
        · have hFval := hasFormat_pos ps hF
          simp only [expand, hDval, hPval, hFval, Bool.false_eq_true,
            eq_self_iff_true, if_true, if_false, Bool.true_or, Bool.false_or,
            Bool.or_true, Bool.or_false, Bool.or_self]
          rw [scan_double payload ps hc, scan_plain payload ps hc hpay,
            scan_format payload ps hc hpay]
        · have hFval := hasFormat_neg ps hc hF
          simp only [expand, hDval, hPval, hFval, Bool.false_eq_true,
            eq_self_iff_true, if_true, if_false, Bool.true_or, Bool.false_or,
            Bool.or_true, Bool.or_false, Bool.or_self]
          rw [scan_double payload ps hc, scan_plain payload ps hc hpay,
            concat_afterPlain_subst payload ps hF]
      · have hPval : containsSub
            (replaceAll doubleFUZZ [] (concatPieces Piece.text ps))
            placeholderFUZZ = false := by
          rw [scan_double [] ps hc]
          exact hasPlain_neg ps hc hP
        by_cases hF : Piece.format ∈ ps
        · have hFval := hasFormat_pos ps hF
          simp only [expand, hDval, hPval, hFval, Bool.false_eq_true,
            eq_self_iff_true, if_true, if_false, Bool.true_or, Bool.false_or,
            Bool.or_true, Bool.or_false, Bool.or_self]
          rw [scan_double payload ps hc,
            concat_afterDouble_afterPlain payload ps hP,
            scan_format payload ps hc hpay]
        · have hFval := hasFormat_neg ps hc hF
          simp only [expand, hDval, hPval, hFval, Bool.false_eq_true,
            eq_self_iff_true, if_true, if_false, Bool.true_or, Bool.false_or,
            Bool.or_true, Bool.or_false, Bool.or_self]
          rw [scan_double payload ps hc,
            concat_afterDouble_afterPlain payload ps hP,
            concat_afterPlain_subst payload ps hF]
    · have hDval := hasDouble_neg ps hc hD
      by_cases hP : Piece.plain ∈ ps
      · have hPval : containsSub (concatPieces Piece.text ps) placeholderFUZZ
            = true := by
          rw [concat_text_afterDouble [] ps hD]
          exact hasPlain_pos [] ps hP
        by_cases hF : Piece.format ∈ ps
        · have hFval := hasFormat_pos ps hF
          simp only [expand, hDval, hPval, hFval, Bool.false_eq_true,
            eq_self_iff_true, if_true, if_false, Bool.true_or, Bool.false_or,
            Bool.or_true, Bool.or_false, Bool.or_self]
          rw [concat_text_afterDouble payload ps hD,
            scan_plain payload ps hc hpay, scan_format payload ps hc hpay]
        · have hFval := hasFormat_neg ps hc hF
          simp only [expand, hDval, hPval, hFval, Bool.false_eq_true,
            eq_self_iff_true, if_true, if_false, Bool.true_or, Bool.false_or,
            Bool.or_true, Bool.or_false, Bool.or_self]
          rw [concat_text_afterDouble payload ps hD,
            scan_plain payload ps hc hpay, concat_afterPlain_subst payload ps hF]
      · have hPval : containsSub (concatPieces Piece.text ps) placeholderFUZZ
            = false := by
          rw [concat_text_afterDouble [] ps hD]
          exact hasPlain_neg ps hc hP
        by_cases hF : Piece.format ∈ ps
        · have hFval := hasFormat_pos ps hF
          simp only [expand, hDval, hPval, hFval, Bool.false_eq_true,
            eq_self_iff_true, if_true, if_false, Bool.true_or, Bool.false_or,
            Bool.or_true, Bool.or_false, Bool.or_self]
          rw [concat_text_afterDouble payload ps hD,
            concat_afterDouble_afterPlain payload ps hP,
            scan_format payload ps hc hpay]
        · exfalso
          obtain ⟨p, hp, hpt⟩ := List.any_eq_true.mp htok
          cases p with
          | lit s => exact Bool.false_ne_true hpt
          | double => exact hD hp
          | plain => exact hP hp
          | format => exact hF hp

/-- Witness for C7: the fallback at a placeholder-free template, and the
substitution at a template containing all three placeholder kinds, with
payload `p`. -/
theorem c7_expand_substitution_witness :
    (containsSub exPlainTpl placeholderFUZZ = false ∧
      containsSub exPlainTpl percentS = false ∧
      expand exPlainTpl exP =
        (if endsWithSlash exPlainTpl = true then exPlainTpl ++ exP
          else exPlainTpl ++ '/' :: exP)) ∧
    (cleanPieces exPieces7 = true ∧ cleanPayload exP = true ∧
      exPieces7.any Piece.isToken = true ∧
      assemble exPieces7 = exTemplate3 ∧ substPieces exP exPieces7 = exResult3 ∧
      expand (assemble exPieces7) exP = substPieces exP exPieces7) :=
  ⟨⟨by decide, by decide, c7_expand_substitution.1 exPlainTpl exP (by decide) (by decide)⟩,
    ⟨by decide, by decide, by decide, by decide, by decide,
      c7_expand_substitution.2 exPieces7 exP (by decide) (by decide) (by decide)⟩⟩

end TemplaterTheoremsC7Main
